import Mathlib

/-!
# Verification of the `universum` topology parser (`src/topology.rs`)

Shallow embedding of the parse-and-validate pipeline: the generic TOML-like
document model, the config resolver (`run_conf`), the TOML→JSON value adapter
(`toml_into_json`), the reference validator (the location check inside
`Topology::try_from`), the tree builder (`run_root`) and the top-level
assembly (`Topology::try_from`), together with theorems settling the frozen
claims about them.

TOML tables (`toml::Table`, a `BTreeMap<String, Value>`) are embedded as
association lists `List (String × _)`; the maps the program builds are kept
key-sorted by `insertSorted`, matching `BTreeMap` insertion, and iterated in
list order, matching `BTreeMap` key-ordered iteration.  Rust `f64` values are
embedded abstractly as `F64`, keeping only the finite/non-finite distinction
that the conversion code observes; `toml::value::Datetime` is embedded as the
string of its canonical textual rendering, which is all `toml_into_json`
observes of it.
-/

set_option linter.unusedVariables false

namespace Universum

/-- Abstract embedding of a Rust `f64`: either a finite value (significand and
exponent payload, whose numeric meaning the program never inspects) or one of
the non-finite values. -/
inductive F64 where
  | finite (m : Int) (e : Int)
  | nan
  | inf
  | negInf
deriving DecidableEq, Repr

/-- `true` exactly on finite values. -/
def F64.isFinite : F64 → Bool
  | .finite _ _ => true
  | _ => false

/-- Embedding of `toml::Value`.  A `table` is a key-sorted association list
(the embedding of `toml::Table = BTreeMap<String, Value>`); a `datetime`
carries its canonical textual rendering. -/
inductive Toml where
  | string (s : String)
  | integer (i : Int)
  | float (f : F64)
  | boolean (b : Bool)
  | datetime (s : String)
  | array (vs : List Toml)
  | table (t : List (String × Toml))

/-- Embedding of a `serde_json::Number`: built from an `i64` or from a finite
`f64` (`serde_json::Number::from_f64`). -/
inductive JNum where
  | ofInt (i : Int)
  | ofFloat (f : F64)

/-- Embedding of `serde_json::Value` (objects are key-ordered maps). -/
inductive Json where
  | null
  | bool (b : Bool)
  | num (n : JNum)
  | str (s : String)
  | arr (vs : List Json)
  | obj (t : List (String × Json))

/-- `serde_json::Number::from_f64`: `some` exactly on finite floats. -/
def numberFromF64 (f : F64) : Option JNum :=
  if f.isFinite then some (.ofFloat f) else none

/-- `Host` from `topology.rs`. -/
structure Host where
  host : String
  port : Nat
deriving DecidableEq

/-- `Publicity` from `topology.rs`. -/
inductive Publicity where
  | Local
  | Internal
  | External
deriving DecidableEq

/-- `Location` from `topology.rs`. -/
structure Location where
  host : String
  port : Nat
  publicity : Option Publicity
deriving DecidableEq

/-- `RunConf` from `topology.rs`. -/
inductive RunConf where
  | none
  | active (params : Json) (location : Location)
  | passive (location : Location)

/-- The `Location` carried by a `RunConf`, if any (`Active`/`Passive`). -/
def RunConf.location? : RunConf → Option Location
  | .none => Option.none
  | .active _ l => some l
  | .passive l => some l

/-- `ParseError` from `topology.rs`. -/
structure ParseError where
  parent : String
  name : String
  error : String
deriving DecidableEq

mutual
/-- `TopologyNode` from `topology.rs`. -/
inductive TopologyNode where
  | mk (name : Option String) (parent : Option String) (config : RunConf)
      (node_type : TopologyNodeType)

/-- `TopologyNodeType` from `topology.rs`. -/
inductive TopologyNodeType where
  | Terminal
  | Node (children : List TopologyNode)
end

/-- Field accessor for `TopologyNode.name`. -/
def TopologyNode.name : TopologyNode → Option String
  | .mk n _ _ _ => n

/-- Field accessor for `TopologyNode.parent`. -/
def TopologyNode.parent : TopologyNode → Option String
  | .mk _ p _ _ => p

/-- Field accessor for `TopologyNode.config`. -/
def TopologyNode.config : TopologyNode → RunConf
  | .mk _ _ c _ => c

/-- Field accessor for `TopologyNode.node_type`. -/
def TopologyNode.node_type : TopologyNode → TopologyNodeType
  | .mk _ _ _ t => t

/-- `Topology` from `topology.rs`. -/
structure Topology where
  hosts : List (String × Host)
  root : TopologyNode

/-- The already-deserialized raw document (`TomlTopology` from `topology.rs`):
the `hosts` leaf table is decoded, the `root` (shape) and `config` sections are
still generic tables. -/
structure TomlTopology where
  hosts : List (String × Host)
  root : List (String × Toml)
  config : List (String × Toml)

/-! ## Association-list map operations (embedding of `BTreeMap`) -/

/-- `BTreeMap::get` on an association list: first entry with the key. -/
def lookupKey {α : Type _} (k : String) : List (String × α) → Option α
  | [] => Option.none
  | (k', v) :: t => if k' = k then some v else lookupKey k t

/-- Drop every entry with key `k` (`BTreeMap::remove`'s effect on the map). -/
def eraseKey {α : Type _} (k : String) (l : List (String × α)) :
    List (String × α) :=
  l.filter (fun e => e.1 != k)

/-- `BTreeMap::remove`: the removed value (if any) and the remaining map. -/
def tblRemove {α : Type _} (k : String) (l : List (String × α)) :
    Option α × List (String × α) :=
  (lookupKey k l, eraseKey k l)

/-- `BTreeMap::insert` on a key-sorted association list. -/
def insertSorted {α : Type _} (k : String) (v : α) :
    List (String × α) → List (String × α)
  | [] => [(k, v)]
  | (k', v') :: t =>
    if k < k' then (k, v) :: (k', v') :: t
    else if k = k' then (k, v) :: t
    else (k', v') :: insertSorted k v t

/-! ## Generic value adapter (`toml_into_json`) -/

mutual
/-- `toml_into_json` from `topology.rs`. -/
def toml_into_json : Toml → Json
  | .string s => .str s
  | .integer i => .num (.ofInt i)
  | .float f =>
    match numberFromF64 f with
    | Option.none => .null
    | some n => .num n
  | .boolean b => .bool b
  | .datetime dt => .str dt
  | .array vs => .arr (tomlListIntoJson vs)
  | .table mv => .obj (tomlTblIntoJson mv)

/-- Elementwise conversion of a TOML array's contents. -/
def tomlListIntoJson : List Toml → List Json
  | [] => []
  | v :: vs => toml_into_json v :: tomlListIntoJson vs

/-- Valuewise conversion of a TOML table's contents. -/
def tomlTblIntoJson : List (String × Toml) → List (String × Json)
  | [] => []
  | (s, v) :: t => (s, toml_into_json v) :: tomlTblIntoJson t
end

/-! ## Small helpers shared by the resolver and the builder -/

/-- `parent.clone().unwrap_or_else(|| String::new())`. -/
def parentStr : Option String → String
  | Option.none => ""
  | some p => p

/-- The dotted-path extension `match parent { None => name, Some(p) => "p.name" }`
appearing throughout `run_conf` and `run_root`. -/
def dotted (parent : Option String) (name : String) : String :=
  match parent with
  | Option.none => name
  | some p => p ++ "." ++ name

mutual
/-- A rendering of a TOML value standing in for Rust's `{:?}` debug format in
error messages (the exact text of the debug payload is library formatting; the
theorems only rely on the `"unexpected value: "` prefix around it). -/
def tomlDebug : Toml → String
  | .string s => "String(" ++ s ++ ")"
  | .integer i => "Integer(" ++ toString i ++ ")"
  | .float f => "Float"
  | .boolean b => "Boolean(" ++ toString b ++ ")"
  | .datetime s => "Datetime(" ++ s ++ ")"
  | .array vs => "Array([" ++ String.intercalate ", " (tomlDebugList vs) ++ "])"
  | .table t => "Table(" ++ String.intercalate ", " (tomlDebugTbl t) ++ ")"

/-- Debug rendering of an array's elements. -/
def tomlDebugList : List Toml → List String
  | [] => []
  | v :: vs => tomlDebug v :: tomlDebugList vs

/-- Debug rendering of a table's entries. -/
def tomlDebugTbl : List (String × Toml) → List String
  | [] => []
  | (k, v) :: t => (k ++ ": " ++ tomlDebug v) :: tomlDebugTbl t
end

/-- The `Location` deserializer used by `loc.try_into()` in `run_conf`
(the serde-derived `Deserialize` for `Location`): a table with a string
`host`, an integer `port` fitting `u16`, and an optional `publicity` drawn
from the three snake_case renamings; other keys are ignored, any other shape
is an error. -/
def locationFromToml : Toml → Except String Location
  | .table t =>
    match lookupKey "host" t with
    | some (.string h) =>
      match lookupKey "port" t with
      | some (.integer p) =>
        if 0 ≤ p ∧ p < 65536 then
          match lookupKey "publicity" t with
          | Option.none => .ok ⟨h, p.toNat, Option.none⟩
          | some (.string "local") => .ok ⟨h, p.toNat, some .Local⟩
          | some (.string "internal") => .ok ⟨h, p.toNat, some .Internal⟩
          | some (.string "external") => .ok ⟨h, p.toNat, some .External⟩
          | some _ => .error "unknown variant for field publicity"
        else .error "invalid value for field port"
      | _ => .error "missing or invalid field port"
    | _ => .error "missing or invalid field host"
  | _ => .error "invalid type: expected a table for Location"

/-! ## Config resolver (`run_conf`) -/

/-- Erasing a key from a table never increases its `sizeOf` (termination
measure for `run_conf`'s descent into the remaining keys). -/
theorem sizeOf_eraseKey_le (k : String) (l : List (String × Toml)) :
    sizeOf (eraseKey k l) ≤ sizeOf l := by
  induction l with
  | nil => simp [eraseKey]
  | cons a t ih =>
    simp only [eraseKey] at ih ⊢
    rw [List.filter_cons]
    cases h : (a.1 != k)
    · simp [h]
      omega
    · simp [h]
      omega

/-- `run_conf` from `topology.rs`, with the mutable accumulator threaded
explicitly: iterating the entries of `table`, each value must itself be a
table, from which the reserved keys `params` and `location` are removed; with
both present an `Active` config is inserted at the extended dotted path and
the recursion descends into the remaining keys, otherwise the iteration stops
with the corresponding error. -/
def run_conf (parent : Option String) (table : List (String × Toml))
    (map : List (String × RunConf)) :
    Except ParseError (List (String × RunConf)) :=
  match table with
  | [] => .ok map
  | (name, .table t) :: rest =>
    match lookupKey "params" t, lookupKey "location" (eraseKey "params" t) with
    | some ps, some loc =>
      match locationFromToml loc with
      | .error e => .error ⟨parentStr parent, name, e⟩
      | .ok l =>
        match run_conf (some (dotted parent name))
            (eraseKey "location" (eraseKey "params" t))
            (insertSorted (dotted parent name)
              (RunConf.active (toml_into_json ps) l) map) with
        | .error e => .error e
        | .ok map' => run_conf parent rest map'
    | some _, Option.none =>
      .error ⟨parentStr parent, name, "conf 'location' is missed"⟩
    | Option.none, some _ =>
      .error ⟨parentStr parent, name, "conf 'params' is missed"⟩
    | Option.none, Option.none =>
      .error ⟨parentStr parent, name, "conf 'location' and 'params' are missed"⟩
  | (name, .string s) :: rest =>
    .error ⟨parentStr parent, name, "unexpected value: " ++ tomlDebug (.string s)⟩
  | (name, .integer i) :: rest =>
    .error ⟨parentStr parent, name, "unexpected value: " ++ tomlDebug (.integer i)⟩
  | (name, .float f) :: rest =>
    .error ⟨parentStr parent, name, "unexpected value: " ++ tomlDebug (.float f)⟩
  | (name, .boolean b) :: rest =>
    .error ⟨parentStr parent, name, "unexpected value: " ++ tomlDebug (.boolean b)⟩
  | (name, .datetime d) :: rest =>
    .error ⟨parentStr parent, name, "unexpected value: " ++ tomlDebug (.datetime d)⟩
  | (name, .array vs) :: rest =>
    .error ⟨parentStr parent, name, "unexpected value: " ++ tomlDebug (.array vs)⟩
termination_by sizeOf table
decreasing_by
  all_goals simp_wf
  all_goals first
    | omega
    | (have h1 := sizeOf_eraseKey_le "location" (eraseKey "params" t)
       have h2 := sizeOf_eraseKey_le "params" t
       omega)

/-! ## Reference validator (the location check in `Topology::try_from`) -/

/-- The `for (name, c) in &conf` loop of `Topology::try_from` checking host
aliases and `(host, port)` uniqueness, with the `services` accumulator
(binding string → first owning path) threaded explicitly. -/
def checkLoop (hosts : List (String × Host)) :
    List (String × RunConf) → List (String × String) → Except ParseError Unit
  | [], _ => .ok ()
  | (name, c) :: rest, services =>
    match c.location? with
    | some location =>
      match lookupKey location.host hosts with
      | some _ =>
        let s := location.host ++ ":" ++ toString location.port
        match lookupKey s services with
        | Option.none => checkLoop hosts rest (insertSorted s name services)
        | some srv =>
          .error ⟨"config", name,
            "duplicate service (" ++ location.host ++ ":" ++
              toString location.port ++ "): " ++ srv⟩
      | Option.none =>
        .error ⟨"config", name, "unknown host: " ++ location.host⟩
    | Option.none => checkLoop hosts rest services

/-- The full location check over the config map, starting from an empty
`services` map. -/
def checkLocations (hosts : List (String × Host))
    (conf : List (String × RunConf)) : Except ParseError Unit :=
  checkLoop hosts conf []

/-! ## Tree builder (`run_root`) -/

/-- The inner `for v in vs` loop of `run_root`'s array case: each element must
be a string `s`, whose config is popped from the map under `p.s` (absence is a
`missed config` error naming the leaf with parent `p`) to build a `Terminal`
node; a non-string element is an `unexpected value` error naming the array key
with the outer parent. -/
def run_leaves (parent : Option String) (name : String) (p : String)
    (vs : List Toml) (confs : List (String × RunConf)) :
    Except ParseError (List TopologyNode × List (String × RunConf)) :=
  match vs with
  | [] => .ok ([], confs)
  | .string s :: rest =>
    match lookupKey (p ++ "." ++ s) confs with
    | Option.none => .error ⟨p, s, "missed config"⟩
    | some conf =>
      match run_leaves parent name p rest (eraseKey (p ++ "." ++ s) confs) with
      | .error e => .error e
      | .ok (tps, confs'') =>
        .ok (.mk (some (p ++ "." ++ s)) (some p) conf .Terminal :: tps, confs'')
  | v :: rest =>
    .error ⟨parentStr parent, name, "unexpected value: " ++ tomlDebug v⟩

/-- `run_root` from `topology.rs`, with the mutable accumulator threaded
explicitly (the remaining config map is returned alongside the nodes): a
table-valued entry recurses with the extended prefix and splices the resulting
nodes into the sibling list; an array-valued entry builds the terminal leaves
via `run_leaves`, pops the group's own config under the dotted path (absence
is a `missed config` error naming the key with the outer parent) and pushes a
`Node` with those leaves as children; any other value shape is an
`unexpected value` error. -/
def run_root (parent : Option String) (table : List (String × Toml))
    (confs : List (String × RunConf)) :
    Except ParseError (List TopologyNode × List (String × RunConf)) :=
  match table with
  | [] => .ok ([], confs)
  | (name, .table t) :: rest =>
    match run_root (some (dotted parent name)) t confs with
    | .error e => .error e
    | .ok (children, confs') =>
      match run_root parent rest confs' with
      | .error e => .error e
      | .ok (nodes, confs'') => .ok (children ++ nodes, confs'')
  | (name, .array vs) :: rest =>
    match run_leaves parent name (dotted parent name) vs confs with
    | .error e => .error e
    | .ok (tps, confs1) =>
      match lookupKey (dotted parent name) confs1 with
      | Option.none => .error ⟨parentStr parent, name, "missed config"⟩
      | some conf =>
        match run_root parent rest (eraseKey (dotted parent name) confs1) with
        | .error e => .error e
        | .ok (nodes, confs3) =>
          .ok (.mk (some (dotted parent name)) parent conf (.Node tps) :: nodes,
            confs3)
  | (name, .string s) :: rest =>
    .error ⟨parentStr parent, name, "unexpected value: " ++ tomlDebug (.string s)⟩
  | (name, .integer i) :: rest =>
    .error ⟨parentStr parent, name, "unexpected value: " ++ tomlDebug (.integer i)⟩
  | (name, .float f) :: rest =>
    .error ⟨parentStr parent, name, "unexpected value: " ++ tomlDebug (.float f)⟩
  | (name, .boolean b) :: rest =>
    .error ⟨parentStr parent, name, "unexpected value: " ++ tomlDebug (.boolean b)⟩
  | (name, .datetime d) :: rest =>
    .error ⟨parentStr parent, name, "unexpected value: " ++ tomlDebug (.datetime d)⟩
termination_by sizeOf table
decreasing_by all_goals (simp_wf <;> omega)

/-! ## Top-level assembly (`Topology::try_from`) -/

/-- `Topology::try_from` from `topology.rs`: resolve the config section into
the flat map, run the location check over the full map, build the node forest
from the shape section, and wrap it in the synthetic root node. -/
def Topology.tryFrom (t : TomlTopology) : Except ParseError Topology :=
  match run_conf Option.none t.config [] with
  | .error e => .error e
  | .ok conf =>
    match checkLocations t.hosts conf with
    | .error e => .error e
    | .ok _ =>
      match run_root Option.none t.root conf with
      | .error e => .error e
      | .ok (root, _) =>
        .ok ⟨t.hosts, .mk Option.none Option.none .none (.Node root)⟩

/-! ## Shallow traversal helper (`TopologyNode::for_each`) -/

/-- `TopologyNode::for_each` from `topology.rs`, with the `FnMut` closure's
captured state threaded explicitly as a fold state: `f` is applied to the node
itself, then to each element of its immediate `Node` children list in order. -/
def TopologyNode.for_each {σ : Type _} (node : TopologyNode)
    (f : σ → TopologyNode → σ) (s : σ) : σ :=
  let s1 := f s node
  match node.node_type with
  | .Node v => v.foldl f s1
  | .Terminal => s1

/-- The immediate children of a node (`Node` payload, empty for `Terminal`). -/
def TopologyNode.directChildren (node : TopologyNode) : List TopologyNode :=
  match node.node_type with
  | .Node v => v
  | .Terminal => []

/-! ## Collecting the nodes of a tree -/

mutual
/-- All nodes of the subtree rooted at a node (the node itself included). -/
def nodeList : TopologyNode → List TopologyNode
  | .mk n p c tp => .mk n p c tp :: typeList tp

/-- All nodes strictly below a node, given its `node_type`. -/
def typeList : TopologyNodeType → List TopologyNode
  | .Terminal => []
  | .Node cs => forestList cs

/-- All nodes of a forest. -/
def forestList : List TopologyNode → List TopologyNode
  | [] => []
  | n :: rest => nodeList n ++ forestList rest
end

/-- The proper descendants of a node (every node of its subtree but itself). -/
def TopologyNode.properNodes (node : TopologyNode) : List TopologyNode :=
  typeList node.node_type

/-! ## Lemmas about the association-list map operations -/

theorem lookupKey_insertSorted_self {α : Type _} (k : String) (v : α)
    (l : List (String × α)) : lookupKey k (insertSorted k v l) = some v := by
  induction l with
  | nil => simp [insertSorted, lookupKey]
  | cons a t ih =>
    rcases a with ⟨k', v'⟩
    rw [insertSorted]
    by_cases h1 : k < k'
    · simp [h1, lookupKey]
    · by_cases h2 : k = k'
      · simp [h1, h2, lookupKey]
      · rw [if_neg h1, if_neg h2, lookupKey, if_neg (fun hh => h2 hh.symm)]
        exact ih

theorem lookupKey_insertSorted_ne {α : Type _} {j k : String} (v : α)
    (l : List (String × α)) (h : j ≠ k) :
    lookupKey j (insertSorted k v l) = lookupKey j l := by
  induction l with
  | nil => simp [insertSorted, lookupKey, Ne.symm h]
  | cons a t ih =>
    rcases a with ⟨k', v'⟩
    rw [insertSorted]
    by_cases h1 : k < k'
    · rw [if_pos h1, lookupKey, if_neg (fun hh => h hh.symm)]
    · by_cases h2 : k = k'
      · subst h2
        rw [if_neg h1, if_pos rfl, lookupKey, if_neg (fun hh => h hh.symm),
          lookupKey, if_neg (fun hh => h hh.symm)]
      · rw [if_neg h1, if_neg h2, lookupKey, lookupKey]
        by_cases h3 : k' = j
        · rw [if_pos h3, if_pos h3]
        · rw [if_neg h3, if_neg h3]
          exact ih

theorem lookupKey_eraseKey_self {α : Type _} (k : String)
    (l : List (String × α)) : lookupKey k (eraseKey k l) = Option.none := by
  induction l with
  | nil => simp [eraseKey, lookupKey]
  | cons a t ih =>
    rcases a with ⟨k', v'⟩
    rw [eraseKey, List.filter_cons]
    by_cases h : k' = k
    · simp only [h, bne_self_eq_false, Bool.false_eq_true, if_false]
      exact ih
    · have hb : ((k', v').1 != k) = true := by simpa using h
      rw [if_pos hb, lookupKey, if_neg h]
      exact ih

theorem lookupKey_eraseKey_ne {α : Type _} {j k : String}
    (l : List (String × α)) (h : j ≠ k) :
    lookupKey j (eraseKey k l) = lookupKey j l := by
  induction l with
  | nil => simp [eraseKey, lookupKey]
  | cons a t ih =>
    rcases a with ⟨k', v'⟩
    rw [eraseKey, List.filter_cons]
    by_cases hk : k' = k
    · simp only [hk, bne_self_eq_false, Bool.false_eq_true, if_false]
      rw [lookupKey, if_neg (fun hh => h hh.symm)]
      exact ih
    · have hb : ((k', v').1 != k) = true := by simpa using hk
      rw [if_pos hb, lookupKey, lookupKey]
      by_cases h3 : k' = j
      · rw [if_pos h3, if_pos h3]
      · rw [if_neg h3, if_neg h3]
        exact ih

theorem lookupKey_of_eraseKey {α : Type _} {j k : String} {v : α}
    {l : List (String × α)} (h : lookupKey j (eraseKey k l) = some v) :
    lookupKey j l = some v := by
  by_cases hjk : j = k
  · rw [hjk, lookupKey_eraseKey_self] at h
    cases h
  · rw [lookupKey_eraseKey_ne _ hjk] at h
    exact h

theorem lookupKey_mem {α : Type _} {k : String} {v : α}
    {l : List (String × α)} (h : lookupKey k l = some v) : (k, v) ∈ l := by
  induction l with
  | nil => simp [lookupKey] at h
  | cons a t ih =>
    rcases a with ⟨k', v'⟩
    rw [lookupKey] at h
    by_cases h1 : k' = k
    · rw [if_pos h1] at h
      cases h
      subst h1
      exact List.mem_cons_self _ _
    · rw [if_neg h1] at h
      exact List.mem_cons_of_mem _ (ih h)

theorem mem_insertSorted {α : Type _} {e : String × α} {k : String} {v : α}
    {l : List (String × α)} (h : e ∈ insertSorted k v l) :
    e = (k, v) ∨ e ∈ l := by
  induction l with
  | nil =>
    rw [insertSorted] at h
    simp at h
    exact Or.inl h
  | cons a t ih =>
    rcases a with ⟨k', v'⟩
    rw [insertSorted] at h
    by_cases h1 : k < k'
    · rw [if_pos h1] at h
      rcases List.mem_cons.1 h with h | h
      · exact Or.inl h
      · exact Or.inr h
    · by_cases h2 : k = k'
      · rw [if_neg h1, if_pos h2] at h
        rcases List.mem_cons.1 h with h | h
        · exact Or.inl h
        · exact Or.inr (List.mem_cons_of_mem _ h)
      · rw [if_neg h1, if_neg h2] at h
        rcases List.mem_cons.1 h with h | h
        · exact Or.inr (h ▸ List.mem_cons_self _ _)
        · rcases ih h with h | h
          · exact Or.inl h
          · exact Or.inr (List.mem_cons_of_mem _ h)

@[simp] theorem TopologyNode.name_mk (n p : Option String) (c : RunConf)
    (tp : TopologyNodeType) : (TopologyNode.mk n p c tp).name = n := rfl

@[simp] theorem TopologyNode.parent_mk (n p : Option String) (c : RunConf)
    (tp : TopologyNodeType) : (TopologyNode.mk n p c tp).parent = p := rfl

@[simp] theorem TopologyNode.config_mk (n p : Option String) (c : RunConf)
    (tp : TopologyNodeType) : (TopologyNode.mk n p c tp).config = c := rfl

@[simp] theorem TopologyNode.node_type_mk (n p : Option String) (c : RunConf)
    (tp : TopologyNodeType) : (TopologyNode.mk n p c tp).node_type = tp := rfl

/-! ## Declared dotted paths of a shape section -/

/-- The dotted paths declared by the string elements of an array in the shape
section (only string elements declare paths; a non-string element aborts the
build). -/
def leafPaths (p : String) : List Toml → List String
  | .string s :: rest => (p ++ "." ++ s) :: leafPaths p rest
  | _ => []

/-- The dotted paths of the nodes declared by a shape table under a prefix:
a table entry is a pure grouping device contributing only its descendants'
paths, an array entry contributes its own dotted path followed by its string
leaves' paths.  (Listed in the order the built nodes carry them.) -/
def declaredTbl (parent : Option String) : List (String × Toml) → List String
  | [] => []
  | (name, .table t) :: rest =>
    declaredTbl (some (dotted parent name)) t ++ declaredTbl parent rest
  | (name, .array vs) :: rest =>
    dotted parent name :: (leafPaths (dotted parent name) vs ++ declaredTbl parent rest)
  | _ :: _ => []

/-! ## Forest-collection lemmas -/

theorem forestList_nil : forestList [] = [] := rfl

theorem forestList_cons (n : TopologyNode) (rest : List TopologyNode) :
    forestList (n :: rest) = nodeList n ++ forestList rest := rfl

theorem forestList_append (l1 l2 : List TopologyNode) :
    forestList (l1 ++ l2) = forestList l1 ++ forestList l2 := by
  induction l1 with
  | nil => simp [forestList]
  | cons n rest ih => simp [forestList, ih]

theorem nodeList_eq (n : TopologyNode) :
    nodeList n = n :: typeList n.node_type := by
  rcases n with ⟨nm, pr, cf, tp⟩
  rw [nodeList]
  rfl

theorem forestList_terminals {l : List TopologyNode}
    (h : ∀ nd ∈ l, nd.node_type = .Terminal) : forestList l = l := by
  induction l with
  | nil => rfl
  | cons n rest ih =>
    rw [forestList_cons, nodeList_eq, h n (List.mem_cons_self _ _)]
    rw [typeList]
    simp only [List.nil_append, List.cons_append, List.nil_append]
    rw [ih (fun nd hnd => h nd (List.mem_cons_of_mem _ hnd))]

/-! ## Properties of `run_leaves` -/

theorem run_leaves_ok_inv {parent : Option String} {name p : String}
    {v : Toml} {vs : List Toml} {confs confs' : List (String × RunConf)}
    {tps : List TopologyNode}
    (h : run_leaves parent name p (v :: vs) confs = .ok (tps, confs')) :
    ∃ s conf tps', v = .string s ∧
      lookupKey (p ++ "." ++ s) confs = some conf ∧
      run_leaves parent name p vs (eraseKey (p ++ "." ++ s) confs) =
        .ok (tps', confs') ∧
      tps = .mk (some (p ++ "." ++ s)) (some p) conf .Terminal :: tps' := by
  cases v with
  | string s =>
    rw [run_leaves] at h
    cases hl : lookupKey (p ++ "." ++ s) confs with
    | none => rw [hl] at h; simp at h
    | some conf =>
      rw [hl] at h
      cases hr : run_leaves parent name p vs (eraseKey (p ++ "." ++ s) confs) with
      | error e => rw [hr] at h; simp at h
      | ok pr =>
        rcases pr with ⟨tps', confs''⟩
        rw [hr] at h
        simp only [Except.ok.injEq, Prod.mk.injEq] at h
        exact ⟨s, conf, tps', rfl, hl, by rw [hr, h.2], by rw [h.1]⟩
  | integer i => simp [run_leaves] at h
  | float f => simp [run_leaves] at h
  | boolean b => simp [run_leaves] at h
  | datetime d => simp [run_leaves] at h
  | array vs2 => simp [run_leaves] at h
  | table t => simp [run_leaves] at h

theorem run_leaves_nil_inv {parent : Option String} {name p : String}
    {confs confs' : List (String × RunConf)} {tps : List TopologyNode}
    (h : run_leaves parent name p [] confs = .ok (tps, confs')) :
    tps = [] ∧ confs' = confs := by
  rw [run_leaves] at h
  simp only [Except.ok.injEq, Prod.mk.injEq] at h
  exact ⟨h.1.symm, h.2.symm⟩

/-- Shape of the nodes built for an array's leaves: terminals named `p.s` for
a string element `s`, with parent `p`. -/
theorem run_leaves_ok_shape {parent : Option String} {name p : String}
    {vs : List Toml} {confs confs' : List (String × RunConf)}
    {tps : List TopologyNode}
    (h : run_leaves parent name p vs confs = .ok (tps, confs')) :
    ∀ nd ∈ tps, ∃ s conf,
      nd = .mk (some (p ++ "." ++ s)) (some p) conf .Terminal := by
  induction vs generalizing confs tps with
  | nil =>
    rcases run_leaves_nil_inv h with ⟨rfl, _⟩
    intro nd hnd
    simp at hnd
  | cons v rest ih =>
    rcases run_leaves_ok_inv h with ⟨s, conf, tps', _, _, hrest, rfl⟩
    intro nd hnd
    rcases List.mem_cons.1 hnd with rfl | hnd
    · exact ⟨s, conf, rfl⟩
    · exact ih hrest nd hnd

/-- The names of the leaf nodes are exactly the declared leaf paths, in
order. -/
theorem run_leaves_ok_names {parent : Option String} {name p : String}
    {vs : List Toml} {confs confs' : List (String × RunConf)}
    {tps : List TopologyNode}
    (h : run_leaves parent name p vs confs = .ok (tps, confs')) :
    tps.map TopologyNode.name = (leafPaths p vs).map some := by
  induction vs generalizing confs tps with
  | nil =>
    rcases run_leaves_nil_inv h with ⟨rfl, _⟩
    rfl
  | cons v rest ih =>
    rcases run_leaves_ok_inv h with ⟨s, conf, tps', rfl, _, hrest, rfl⟩
    rw [leafPaths]
    simp only [List.map_cons]
    rw [ih hrest]
    rfl

/-- The leaves loop only removes entries: a key still bound afterwards was
bound (to the same config) before. -/
theorem run_leaves_ok_mono {parent : Option String} {name p : String}
    {vs : List Toml} {confs confs' : List (String × RunConf)}
    {tps : List TopologyNode}
    (h : run_leaves parent name p vs confs = .ok (tps, confs')) :
    ∀ k v, lookupKey k confs' = some v → lookupKey k confs = some v := by
  induction vs generalizing confs tps with
  | nil =>
    rcases run_leaves_nil_inv h with ⟨_, rfl⟩
    exact fun _ _ hk => hk
  | cons v rest ih =>
    rcases run_leaves_ok_inv h with ⟨s, conf, tps', _, _, hrest, _⟩
    intro k v hk
    have hk2 := ih hrest k v hk
    by_cases hkp : k = p ++ "." ++ s
    · rw [hkp, lookupKey_eraseKey_self] at hk2
      cases hk2
    · rw [lookupKey_eraseKey_ne _ hkp] at hk2
      exact hk2

/-- Each built leaf's config was popped from the map under the leaf's full
dotted name: present on entry, absent on exit. -/
theorem run_leaves_ok_lookup {parent : Option String} {name p : String}
    {vs : List Toml} {confs confs' : List (String × RunConf)}
    {tps : List TopologyNode}
    (h : run_leaves parent name p vs confs = .ok (tps, confs')) :
    ∀ nd ∈ tps, ∃ nm, nd.name = some nm ∧
      lookupKey nm confs = some nd.config ∧
      lookupKey nm confs' = Option.none := by
  induction vs generalizing confs tps with
  | nil =>
    rcases run_leaves_nil_inv h with ⟨rfl, _⟩
    intro nd hnd
    simp at hnd
  | cons v rest ih =>
    rcases run_leaves_ok_inv h with ⟨s, conf, tps', _, hfind, hrest, rfl⟩
    intro nd hnd
    rcases List.mem_cons.1 hnd with rfl | hnd
    · refine ⟨p ++ "." ++ s, rfl, hfind, ?_⟩
      cases hk : lookupKey (p ++ "." ++ s) confs' with
      | none => rfl
      | some c =>
        have := run_leaves_ok_mono hrest _ _ hk
        rw [lookupKey_eraseKey_self] at this
        cases this
    · rcases ih hrest nd hnd with ⟨nm, h1, h2, h3⟩
      refine ⟨nm, h1, ?_, h3⟩
      by_cases hkp : nm = p ++ "." ++ s
      · rw [hkp, lookupKey_eraseKey_self] at h2
        cases h2
      · rw [lookupKey_eraseKey_ne _ hkp] at h2
        exact h2

/-- Keys that are not a built leaf's name are untouched by the leaves loop. -/
theorem run_leaves_ok_untouched {parent : Option String} {name p : String}
    {vs : List Toml} {confs confs' : List (String × RunConf)}
    {tps : List TopologyNode}
    (h : run_leaves parent name p vs confs = .ok (tps, confs')) :
    ∀ k, (∀ nd ∈ tps, nd.name ≠ some k) →
      lookupKey k confs' = lookupKey k confs := by
  induction vs generalizing confs tps with
  | nil =>
    rcases run_leaves_nil_inv h with ⟨_, rfl⟩
    exact fun _ _ => rfl
  | cons v rest ih =>
    rcases run_leaves_ok_inv h with ⟨s, conf, tps', _, _, hrest, rfl⟩
    intro k hk
    have hkp : k ≠ p ++ "." ++ s := by
      intro hh
      exact hk _ (List.mem_cons_self _ _) (by rw [TopologyNode.name, hh])
    have := ih hrest k (fun nd hnd => hk nd (List.mem_cons_of_mem _ hnd))
    rw [this, lookupKey_eraseKey_ne _ hkp]

/-- Distinct leaves get distinct names (a repeated leaf would find its config
already consumed and abort). -/
theorem run_leaves_ok_pairwise {parent : Option String} {name p : String}
    {vs : List Toml} {confs confs' : List (String × RunConf)}
    {tps : List TopologyNode}
    (h : run_leaves parent name p vs confs = .ok (tps, confs')) :
    tps.Pairwise (fun a b => a.name ≠ b.name) := by
  induction vs generalizing confs tps with
  | nil =>
    rcases run_leaves_nil_inv h with ⟨rfl, _⟩
    exact List.Pairwise.nil
  | cons v rest ih =>
    rcases run_leaves_ok_inv h with ⟨s, conf, tps', _, _, hrest, rfl⟩
    refine List.Pairwise.cons ?_ (ih hrest)
    intro nd hnd
    rcases run_leaves_ok_lookup hrest nd hnd with ⟨nm, h1, h2, _⟩
    rw [TopologyNode.name, h1]
    intro hh
    cases hh
    rw [lookupKey_eraseKey_self] at h2
    cases h2

/-! ## The combined bookkeeping facts of a successful `run_root` run -/

/-- Everything a successful `run_root` run guarantees about the built forest
and the remaining config map: (1) every node is named by extending its own
`parent` field with a final key; (2) the collected node names are exactly the
paths declared by the shape table, in order; (3) every node's config was
popped from the map under the node's name (present on entry, absent on exit);
(4) the run only removes entries; (5) keys not naming a built node are
untouched; (6) node names are pairwise distinct; (7) the children of any
`Node`-kind node in the forest carry that node's name as their `parent`. -/
theorem run_root_ok_spec :
    ∀ (parent : Option String) (table : List (String × Toml))
      (confs : List (String × RunConf)) (nodes : List TopologyNode)
      (confs' : List (String × RunConf)),
      run_root parent table confs = .ok (nodes, confs') →
      (∀ nd ∈ forestList nodes, ∃ pp k conf tp,
          nd = .mk (some (dotted pp k)) pp conf tp)
      ∧ (forestList nodes).map TopologyNode.name
          = (declaredTbl parent table).map some
      ∧ (∀ nd ∈ forestList nodes, ∃ nm, nd.name = some nm ∧
          lookupKey nm confs = some nd.config ∧
          lookupKey nm confs' = Option.none)
      ∧ (∀ k v, lookupKey k confs' = some v → lookupKey k confs = some v)
      ∧ (∀ k, (∀ nd ∈ forestList nodes, nd.name ≠ some k) →
          lookupKey k confs' = lookupKey k confs)
      ∧ (forestList nodes).Pairwise (fun a b => a.name ≠ b.name)
      ∧ (∀ nd ∈ forestList nodes, ∀ cs, nd.node_type = .Node cs →
          ∀ c ∈ cs, c.parent = nd.name) := by
  intro parent table confs
  induction parent, table, confs using run_root.induct with
  | case1 parent confs =>
    intro nodes confs' hok
    simp only [run_root, Except.ok.injEq, Prod.mk.injEq] at hok
    obtain ⟨hn, hc⟩ := hok
    subst hn
    subst hc
    refine ⟨?_, ?_, ?_, ?_, ?_, ?_, ?_⟩
    · intro nd hnd
      simp [forestList] at hnd
    · simp [forestList, declaredTbl]
    · intro nd hnd
      simp [forestList] at hnd
    · exact fun _ _ h => h
    · exact fun _ _ => rfl
    · simp [forestList]
    · intro nd hnd
      simp [forestList] at hnd
  | case2 parent confs name t rest e hErr ih =>
    intro nodes confs' hok
    simp only [run_root, hErr] at hok
    exact Except.noConfusion hok
  | case3 parent confs name t rest children confsA hInner e hErr ih1 ih2 =>
    intro nodes confs' hok
    simp only [run_root, hInner, hErr] at hok
    exact Except.noConfusion hok
  | case4 parent confs name t rest children confsA hInner nodes2 confsB hRest ih1 ih2 =>
    intro nodes confs' hok
    simp only [run_root, hInner, hRest, Except.ok.injEq, Prod.mk.injEq] at hok
    obtain ⟨hn, hc⟩ := hok
    subst hn
    subst hc
    obtain ⟨A1, B1, C1, D1, E1, F1, G1⟩ := ih1 children confsA hInner
    obtain ⟨A2, B2, C2, D2, E2, F2, G2⟩ := ih2 nodes2 confsB hRest
    rw [forestList_append]
    refine ⟨?_, ?_, ?_, ?_, ?_, ?_, ?_⟩
    · intro nd hnd
      rcases List.mem_append.1 hnd with h | h
      · exact A1 nd h
      · exact A2 nd h
    · rw [List.map_append, B1, B2, declaredTbl, List.map_append]
    · intro nd hnd
      rcases List.mem_append.1 hnd with h | h
      · rcases C1 nd h with ⟨nm, e1, e2, e3⟩
        refine ⟨nm, e1, e2, ?_⟩
        cases hx : lookupKey nm confsB with
        | none => rfl
        | some c =>
          have h5 := D2 _ _ hx
          rw [e3] at h5
          cases h5
      · rcases C2 nd h with ⟨nm, e1, e2, e3⟩
        exact ⟨nm, e1, D1 _ _ e2, e3⟩
    · exact fun k v hx => D1 _ _ (D2 _ _ hx)
    · intro k hk
      rw [E2 k (fun nd hnd => hk nd (List.mem_append.2 (Or.inr hnd))),
        E1 k (fun nd hnd => hk nd (List.mem_append.2 (Or.inl hnd)))]
    · rw [List.pairwise_append]
      refine ⟨F1, F2, ?_⟩
      intro a ha b hb
      rcases C1 a ha with ⟨nmA, ea1, _, ea3⟩
      rcases C2 b hb with ⟨nmB, eb1, eb2, _⟩
      rw [ea1, eb1]
      intro hcontra
      cases hcontra
      rw [ea3] at eb2
      cases eb2
    · intro nd hnd
      rcases List.mem_append.1 hnd with h | h
      · exact G1 nd h
      · exact G2 nd h
  | case5 parent confs name vs rest e hErr =>
    intro nodes confs' hok
    simp only [run_root, hErr] at hok
    exact Except.noConfusion hok
  | case6 parent confs name vs rest tps confsA hLeaves hNone =>
    intro nodes confs' hok
    simp only [run_root, hLeaves, hNone] at hok
    exact Except.noConfusion hok
  | case7 parent confs name vs rest tps confsA hLeaves conf hSome e hErr ihRest =>
    intro nodes confs' hok
    simp only [run_root, hLeaves, hSome, hErr] at hok
    exact Except.noConfusion hok
  | case8 parent confs name vs rest tps confsA hLeaves conf hSome nodes2 confs3 hRestOk ihRest =>
    intro nodes confs' hok
    simp only [run_root, hLeaves, hSome, hRestOk, Except.ok.injEq,
      Prod.mk.injEq] at hok
    obtain ⟨hn, hc⟩ := hok
    subst hn
    subst hc
    obtain ⟨A2, B2, C2, D2, E2, F2, G2⟩ := ihRest nodes2 confs3 hRestOk
    have hshape := run_leaves_ok_shape hLeaves
    have hnames := run_leaves_ok_names hLeaves
    have hmono := run_leaves_ok_mono hLeaves
    have hlook := run_leaves_ok_lookup hLeaves
    have hpw := run_leaves_ok_pairwise hLeaves
    have huntouch := run_leaves_ok_untouched hLeaves
    have hterm : forestList tps = tps := by
      apply forestList_terminals
      intro nd hnd
      rcases hshape nd hnd with ⟨s, c, rfl⟩
      rfl
    have hforest :
        forestList (TopologyNode.mk (some (dotted parent name)) parent conf
            (.Node tps) :: nodes2)
          = TopologyNode.mk (some (dotted parent name)) parent conf
              (.Node tps) :: (tps ++ forestList nodes2) := by
      rw [forestList_cons, nodeList_eq, TopologyNode.node_type_mk, typeList,
        hterm, List.cons_append]
    rw [hforest]
    refine ⟨?_, ?_, ?_, ?_, ?_, ?_, ?_⟩
    · intro nd hnd
      rcases List.mem_cons.1 hnd with rfl | hnd
      · exact ⟨parent, name, conf, .Node tps, rfl⟩
      · rcases List.mem_append.1 hnd with h | h
        · rcases hshape nd h with ⟨s, c, rfl⟩
          exact ⟨some (dotted parent name), s, c, .Terminal, rfl⟩
        · exact A2 nd h
    · rw [declaredTbl]
      simp only [List.map_cons, List.map_append]
      rw [hnames, B2]
      rfl
    · intro nd hnd
      rcases List.mem_cons.1 hnd with rfl | hnd
      · refine ⟨dotted parent name, rfl, hmono _ _ hSome, ?_⟩
        cases hx : lookupKey (dotted parent name) confs3 with
        | none => rfl
        | some c =>
          have h5 := D2 _ _ hx
          rw [lookupKey_eraseKey_self] at h5
          cases h5
      · rcases List.mem_append.1 hnd with h | h
        · rcases hlook nd h with ⟨nm, e1, e2, e3⟩
          refine ⟨nm, e1, e2, ?_⟩
          cases hx : lookupKey nm confs3 with
          | none => rfl
          | some c =>
            have h5 := lookupKey_of_eraseKey (D2 _ _ hx)
            rw [e3] at h5
            cases h5
        · rcases C2 nd h with ⟨nm, e1, e2, e3⟩
          exact ⟨nm, e1, hmono _ _ (lookupKey_of_eraseKey e2), e3⟩
    · exact fun k v hx => hmono _ _ (lookupKey_of_eraseKey (D2 _ _ hx))
    · intro k hk
      have hkg : dotted parent name ≠ k := by
        intro hh
        exact hk _ (List.mem_cons_self _ _) (by simp [hh])
      rw [E2 k (fun nd hnd =>
          hk nd (List.mem_cons_of_mem _ (List.mem_append.2 (Or.inr hnd)))),
        lookupKey_eraseKey_ne _ (fun hh => hkg hh.symm),
        huntouch k (fun nd hnd =>
          hk nd (List.mem_cons_of_mem _ (List.mem_append.2 (Or.inl hnd))))]
    · rw [List.pairwise_cons]
      constructor
      · intro b hb
        rcases List.mem_append.1 hb with h | h
        · rcases hlook b h with ⟨nm, e1, _, e3⟩
          rw [TopologyNode.name_mk, e1]
          intro hh
          cases hh
          rw [hSome] at e3
          cases e3
        · rcases C2 b h with ⟨nm, e1, e2, _⟩
          rw [TopologyNode.name_mk, e1]
          intro hh
          cases hh
          rw [lookupKey_eraseKey_self] at e2
          cases e2
      · rw [List.pairwise_append]
        refine ⟨hpw, F2, ?_⟩
        intro a ha b hb
        rcases hlook a ha with ⟨nmA, ea1, _, ea3⟩
        rcases C2 b hb with ⟨nmB, eb1, eb2, _⟩
        rw [ea1, eb1]
        intro hcontra
        cases hcontra
        have h5 := lookupKey_of_eraseKey eb2
        rw [ea3] at h5
        cases h5
    · intro nd hnd
      rcases List.mem_cons.1 hnd with rfl | hnd
      · intro cs hcs c hc
        rw [TopologyNode.node_type_mk] at hcs
        cases hcs
        rcases hshape c hc with ⟨s, cc, rfl⟩
        rfl
      · rcases List.mem_append.1 hnd with h | h
        · rcases hshape nd h with ⟨s, cc, rfl⟩
          intro cs hcs
          rw [TopologyNode.node_type_mk] at hcs
          exact TopologyNodeType.noConfusion hcs
        · exact G2 nd h
  | case9 parent confs name s rest =>
    intro nodes confs' hok
    simp [run_root] at hok
  | case10 parent confs name i rest =>
    intro nodes confs' hok
    simp [run_root] at hok
  | case11 parent confs name f rest =>
    intro nodes confs' hok
    simp [run_root] at hok
  | case12 parent confs name b rest =>
    intro nodes confs' hok
    simp [run_root] at hok
  | case13 parent confs name d rest =>
    intro nodes confs' hok
    simp [run_root] at hok

/-! ## Reference-validator predicates and lemmas -/

/-- The `"host:port"` binding string the validator keys its `services` map
by (`format!("{}:{}", location.host, location.port)`). -/
def bindingStr (l : Location) : String :=
  l.host ++ ":" ++ toString l.port

/-- Two config entries do not claim the same binding (vacuously true unless
both carry locations). -/
def distinctBindings (a b : String × RunConf) : Prop :=
  ∀ la lb, a.2.location? = some la → b.2.location? = some lb →
    bindingStr la ≠ bindingStr lb

/-- A `duplicate service` error as built by the validator. -/
def isDupErr (e : ParseError) : Prop :=
  e.parent = "config" ∧ ∃ (h : String) (p : Nat) (srv : String),
    e.error = "duplicate service (" ++ h ++ ":" ++ toString p ++ "): " ++ srv

/-- An `unknown host` error as built by the validator. -/
def isUnknownHostErr (e : ParseError) : Prop :=
  e.parent = "config" ∧ ∃ h, e.error = "unknown host: " ++ h

/-- Every located entry of a config map references a declared host alias. -/
def hostsKnown (hosts : List (String × Host))
    (conf : List (String × RunConf)) : Prop :=
  ∀ e ∈ conf, ∀ l, e.2.location? = some l → (lookupKey l.host hosts).isSome

theorem distinctBindings_symm :
    ∀ {a b : String × RunConf}, distinctBindings a b → distinctBindings b a :=
  fun h la lb hla hlb => (h lb la hlb hla).symm

/-- If the validator loop accepts, the surviving entries' bindings are
pairwise distinct and none of them was already claimed in `services`. -/
theorem checkLoop_ok_spec (hosts : List (String × Host)) :
    ∀ (conf : List (String × RunConf)) (services : List (String × String)),
      checkLoop hosts conf services = .ok () →
      conf.Pairwise distinctBindings ∧
      ∀ e ∈ conf, ∀ l, e.2.location? = some l →
        lookupKey (bindingStr l) services = Option.none := by
  intro conf
  induction conf with
  | nil =>
    intro services h
    exact ⟨List.Pairwise.nil, by simp⟩
  | cons a rest ih =>
    rcases a with ⟨name, c⟩
    intro services h
    cases hloc : c.location? with
    | none =>
      simp only [checkLoop, hloc] at h
      obtain ⟨hp, hs⟩ := ih services h
      refine ⟨List.Pairwise.cons ?_ hp, ?_⟩
      · intro b hb la lb hla hlb
        rw [hloc] at hla
        cases hla
      · intro e he l hl
        rcases List.mem_cons.1 he with rfl | he
        · rw [hloc] at hl
          cases hl
        · exact hs e he l hl
    | some location =>
      cases hhost : lookupKey location.host hosts with
      | none =>
        simp only [checkLoop, hloc, hhost] at h
        exact Except.noConfusion h
      | some hst =>
        cases hserv : lookupKey (location.host ++ ":" ++ toString location.port)
            services with
        | some srv =>
          simp only [checkLoop, hloc, hhost, hserv] at h
          exact Except.noConfusion h
        | none =>
          simp only [checkLoop, hloc, hhost, hserv] at h
          obtain ⟨hp, hs⟩ := ih _ h
          refine ⟨List.Pairwise.cons ?_ hp, ?_⟩
          · intro b hb la lb hla hlb
            rw [hloc] at hla
            cases hla
            have hb2 := hs b hb lb hlb
            intro hcontra
            simp only [bindingStr] at hb2 hcontra
            rw [← hcontra, lookupKey_insertSorted_self] at hb2
            cases hb2
          · intro e he l hl
            rcases List.mem_cons.1 he with rfl | he
            · rw [hloc] at hl
              cases hl
              exact hserv
            · have hb2 := hs e he l hl
              by_cases hbe : bindingStr l
                  = location.host ++ ":" ++ toString location.port
              · rw [hbe, lookupKey_insertSorted_self] at hb2
                cases hb2
              · rw [lookupKey_insertSorted_ne _ _ hbe] at hb2
                exact hb2

/-- When every entry's host alias is known, the only error the validator loop
can produce is a duplicate-binding error. -/
theorem checkLoop_err_dup (hosts : List (String × Host)) :
    ∀ (conf : List (String × RunConf)) (services : List (String × String))
      (e : ParseError), hostsKnown hosts conf →
      checkLoop hosts conf services = .error e → isDupErr e := by
  intro conf
  induction conf with
  | nil =>
    intro services e _ h
    simp [checkLoop] at h
  | cons a rest ih =>
    rcases a with ⟨name, c⟩
    intro services e hknown h
    cases hloc : c.location? with
    | none =>
      simp only [checkLoop, hloc] at h
      exact ih _ _ (fun x hx => hknown x (List.mem_cons_of_mem _ hx)) h
    | some location =>
      have hk := hknown (name, c) (List.mem_cons_self _ _) location hloc
      cases hhost : lookupKey location.host hosts with
      | none =>
        rw [hhost] at hk
        cases hk
      | some hst =>
        cases hserv : lookupKey (location.host ++ ":" ++ toString location.port)
            services with
        | some srv =>
          simp only [checkLoop, hloc, hhost, hserv, Except.error.injEq] at h
          subst h
          exact ⟨rfl, location.host, location.port, srv, rfl⟩
        | none =>
          simp only [checkLoop, hloc, hhost, hserv] at h
          exact ih _ _ (fun x hx => hknown x (List.mem_cons_of_mem _ hx)) h

/-- An entry with an unknown host alias makes the validator loop fail (with
either an unknown-host error for it — or an earlier entry — or a
duplicate-binding error detected before reaching it). -/
theorem checkLoop_unknown_fails (hosts : List (String × Host)) :
    ∀ (conf : List (String × RunConf)) (services : List (String × String))
      (p : String) (c : RunConf) (l : Location), (p, c) ∈ conf →
      c.location? = some l → lookupKey l.host hosts = Option.none →
      ∃ e, checkLoop hosts conf services = .error e ∧
        (isUnknownHostErr e ∨ isDupErr e) := by
  intro conf
  induction conf with
  | nil =>
    intro services p c l hmem
    simp at hmem
  | cons a rest ih =>
    rcases a with ⟨name, c0⟩
    intro services p c l hmem hloc hhost
    rcases List.mem_cons.1 hmem with heq | hmem
    · cases heq
      simp only [checkLoop, hloc, hhost]
      exact ⟨_, rfl, Or.inl ⟨rfl, l.host, rfl⟩⟩
    · cases hloc0 : c0.location? with
      | none =>
        simp only [checkLoop, hloc0]
        exact ih _ p c l hmem hloc hhost
      | some l0 =>
        cases hhost0 : lookupKey l0.host hosts with
        | none =>
          simp only [checkLoop, hloc0, hhost0]
          exact ⟨_, rfl, Or.inl ⟨rfl, l0.host, rfl⟩⟩
        | some hst =>
          cases hserv : lookupKey (l0.host ++ ":" ++ toString l0.port)
              services with
          | some srv =>
            simp only [checkLoop, hloc0, hhost0, hserv]
            exact ⟨_, rfl, Or.inr ⟨rfl, l0.host, l0.port, srv, rfl⟩⟩
          | none =>
            simp only [checkLoop, hloc0, hhost0, hserv]
            exact ih _ p c l hmem hloc hhost

/-- When no two entries claim the same binding (and none is claimed in
`services` already), an entry with an unknown host alias makes the validator
loop fail with an unknown-host error. -/
theorem checkLoop_unknown_err (hosts : List (String × Host)) :
    ∀ (conf : List (String × RunConf)) (services : List (String × String))
      (p : String) (c : RunConf) (l : Location), (p, c) ∈ conf →
      c.location? = some l → lookupKey l.host hosts = Option.none →
      conf.Pairwise distinctBindings →
      (∀ e ∈ conf, ∀ lc, e.2.location? = some lc →
        lookupKey (bindingStr lc) services = Option.none) →
      ∃ e, checkLoop hosts conf services = .error e ∧ isUnknownHostErr e := by
  intro conf
  induction conf with
  | nil =>
    intro services p c l hmem
    simp at hmem
  | cons a rest ih =>
    rcases a with ⟨name, c0⟩
    intro services p c l hmem hloc hhost hpw hinv
    rcases List.mem_cons.1 hmem with heq | hmem
    · cases heq
      simp only [checkLoop, hloc, hhost]
      exact ⟨_, rfl, rfl, l.host, rfl⟩
    · cases hloc0 : c0.location? with
      | none =>
        simp only [checkLoop, hloc0]
        exact ih _ p c l hmem hloc hhost (List.Pairwise.sublist (List.sublist_cons_self _ _) hpw)
          (fun e he lc hlc => hinv e (List.mem_cons_of_mem _ he) lc hlc)
      | some l0 =>
        cases hhost0 : lookupKey l0.host hosts with
        | none =>
          simp only [checkLoop, hloc0, hhost0]
          exact ⟨_, rfl, rfl, l0.host, rfl⟩
        | some hst =>
          have hserv : lookupKey (l0.host ++ ":" ++ toString l0.port) services
              = Option.none :=
            hinv (name, c0) (List.mem_cons_self _ _) l0 hloc0
          simp only [checkLoop, hloc0, hhost0, hserv]
          refine ih _ p c l hmem hloc hhost
            (List.Pairwise.sublist (List.sublist_cons_self _ _) hpw) ?_
          intro e he lc hlc
          have hne : bindingStr lc ≠ l0.host ++ ":" ++ toString l0.port :=
            fun hcontra =>
              ((List.pairwise_cons.1 hpw).1 e he l0 lc hloc0 hlc) hcontra.symm
          have h0 := hinv e (List.mem_cons_of_mem _ he) lc hlc
          rw [lookupKey_insertSorted_ne _ _ hne]
          exact h0

/-! ## Inversion of the top-level assembly -/

theorem tryFrom_ok_inv {t : TomlTopology} {topo : Topology}
    (h : Topology.tryFrom t = .ok topo) :
    ∃ conf nodes rem, run_conf Option.none t.config [] = .ok conf ∧
      checkLocations t.hosts conf = .ok () ∧
      run_root Option.none t.root conf = .ok (nodes, rem) ∧
      topo = ⟨t.hosts, .mk Option.none Option.none .none (.Node nodes)⟩ := by
  cases h1 : run_conf Option.none t.config [] with
  | error e =>
    simp only [Topology.tryFrom, h1] at h
    exact Except.noConfusion h
  | ok conf =>
    cases h2 : checkLocations t.hosts conf with
    | error e =>
      simp only [Topology.tryFrom, h1, h2] at h
      exact Except.noConfusion h
    | ok u =>
      cases u
      cases h3 : run_root Option.none t.root conf with
      | error e =>
        simp only [Topology.tryFrom, h1, h2, h3] at h
        exact Except.noConfusion h
      | ok pr =>
        rcases pr with ⟨nodes, rem⟩
        simp only [Topology.tryFrom, h1, h2, h3, Except.ok.injEq] at h
        exact ⟨conf, nodes, rem, rfl, h2, h3, h.symm⟩

theorem tryFrom_check_error {t : TomlTopology}
    {conf : List (String × RunConf)} {e : ParseError}
    (h1 : run_conf Option.none t.config [] = .ok conf)
    (h2 : checkLocations t.hosts conf = .error e) :
    Topology.tryFrom t = .error e := by
  simp only [Topology.tryFrom, h1, h2]

/-! ## The resolver only produces `Active` entries -/

/-- `run_conf` only ever inserts `Active` configs: if every entry of the
incoming accumulator is `Active`, so is every entry of the outgoing one. -/
theorem run_conf_ok_active :
    ∀ (parent : Option String) (table : List (String × Toml))
      (map : List (String × RunConf)) (map' : List (String × RunConf)),
      run_conf parent table map = .ok map' →
      (∀ e ∈ map, ∃ ps l, e.2 = RunConf.active ps l) →
      ∀ e ∈ map', ∃ ps l, e.2 = RunConf.active ps l := by
  intro parent table map
  induction parent, table, map using run_conf.induct with
  | case1 parent map =>
    intro map' hok hacc
    simp only [run_conf, Except.ok.injEq] at hok
    subst hok
    exact hacc
  | case2 parent map name t rest ps loc hl hp e hdec =>
    intro map' hok hacc
    simp only [run_conf, hp, hl, hdec] at hok
    exact Except.noConfusion hok
  | case3 parent map name t rest ps loc hl hp l hdec e hInner ih =>
    intro map' hok hacc
    simp only [run_conf, hp, hl, hdec, hInner] at hok
    exact Except.noConfusion hok
  | case4 parent map name t rest ps loc hl hp l hdec map1 hInner ih1 ih2 =>
    intro map' hok hacc
    simp only [run_conf, hp, hl, hdec, hInner] at hok
    refine ih2 map' hok ?_
    refine ih1 map1 hInner ?_
    intro e he
    rcases mem_insertSorted he with rfl | he
    · exact ⟨toml_into_json ps, l, rfl⟩
    · exact hacc e he
  | case5 parent map name t rest val hl hp =>
    intro map' hok hacc
    simp only [run_conf, hp, hl] at hok
    exact Except.noConfusion hok
  | case6 parent map name t rest val hl hp =>
    intro map' hok hacc
    simp only [run_conf, hp, hl] at hok
    exact Except.noConfusion hok
  | case7 parent map name t rest hl hp =>
    intro map' hok hacc
    simp only [run_conf, hp, hl] at hok
    exact Except.noConfusion hok
  | case8 parent map name s rest =>
    intro map' hok hacc
    simp [run_conf] at hok
  | case9 parent map name i rest =>
    intro map' hok hacc
    simp [run_conf] at hok
  | case10 parent map name f rest =>
    intro map' hok hacc
    simp [run_conf] at hok
  | case11 parent map name b rest =>
    intro map' hok hacc
    simp [run_conf] at hok
  | case12 parent map name d rest =>
    intro map' hok hacc
    simp [run_conf] at hok
  | case13 parent map name vs rest =>
    intro map' hok hacc
    simp [run_conf] at hok

/-! ## Conversion list lemmas -/

theorem tomlListIntoJson_eq_map (vs : List Toml) :
    tomlListIntoJson vs = vs.map toml_into_json := by
  induction vs with
  | nil => rfl
  | cons v rest ih => rw [tomlListIntoJson, ih, List.map_cons]

theorem tomlTblIntoJson_eq_map (tb : List (String × Toml)) :
    tomlTblIntoJson tb = tb.map (fun e => (e.1, toml_into_json e.2)) := by
  induction tb with
  | nil => rfl
  | cons e rest ih =>
    rcases e with ⟨k, v⟩
    rw [tomlTblIntoJson, ih, List.map_cons]

theorem foldl_snoc_eq_append (l : List TopologyNode) :
    ∀ acc : List TopologyNode,
      List.foldl (fun acc m => acc ++ [m]) acc l = acc ++ l := by
  induction l with
  | nil => intro acc; simp
  | cons n rest ih =>
    intro acc
    rw [List.foldl_cons, ih]
    simp

/-! ## Claim theorems -/

/-- C1: Config Resolver contract — at each key/value pair of a config table,
`run_conf` (a) fails with an `unexpected value` (UnexpectedValueShape-style)
error naming the parent and key when the value is not a table; (b) when the
inner table contains both reserved keys `params` and `location` (and the
location decodes), records `RunConf.active` (params through the adapter,
location decoded) at the current dotted path and recurses into the remaining
keys with the path extended by the current key, then continues with the
sibling entries; (c)/(d)/(e) when exactly one or neither reserved key is
present, fails with a MissingLocationOrParams-style error whose message says
which field is missing. -/
theorem claim_run_conf_contract :
    (∀ (parent : Option String) (name : String) (v : Toml)
        (rest : List (String × Toml)) (map : List (String × RunConf)),
        (∀ tb : List (String × Toml), v ≠ .table tb) →
        run_conf parent ((name, v) :: rest) map =
          .error ⟨parentStr parent, name, "unexpected value: " ++ tomlDebug v⟩)
    ∧ (∀ (parent : Option String) (name : String) (t : List (String × Toml))
        (rest : List (String × Toml)) (map : List (String × RunConf))
        (ps loc : Toml) (l : Location),
        lookupKey "params" t = some ps →
        lookupKey "location" (eraseKey "params" t) = some loc →
        locationFromToml loc = .ok l →
        run_conf parent ((name, .table t) :: rest) map =
          match run_conf (some (dotted parent name))
              (eraseKey "location" (eraseKey "params" t))
              (insertSorted (dotted parent name)
                (RunConf.active (toml_into_json ps) l) map) with
          | .error e => .error e
          | .ok map' => run_conf parent rest map')
    ∧ (∀ (parent : Option String) (name : String) (t : List (String × Toml))
        (rest : List (String × Toml)) (map : List (String × RunConf))
        (ps : Toml),
        lookupKey "params" t = some ps →
        lookupKey "location" (eraseKey "params" t) = Option.none →
        run_conf parent ((name, .table t) :: rest) map =
          .error ⟨parentStr parent, name, "conf 'location' is missed"⟩)
    ∧ (∀ (parent : Option String) (name : String) (t : List (String × Toml))
        (rest : List (String × Toml)) (map : List (String × RunConf))
        (loc : Toml),
        lookupKey "params" t = Option.none →
        lookupKey "location" (eraseKey "params" t) = some loc →
        run_conf parent ((name, .table t) :: rest) map =
          .error ⟨parentStr parent, name, "conf 'params' is missed"⟩)
    ∧ (∀ (parent : Option String) (name : String) (t : List (String × Toml))
        (rest : List (String × Toml)) (map : List (String × RunConf)),
        lookupKey "params" t = Option.none →
        lookupKey "location" (eraseKey "params" t) = Option.none →
        run_conf parent ((name, .table t) :: rest) map =
          .error ⟨parentStr parent, name,
            "conf 'location' and 'params' are missed"⟩) := by
  refine ⟨?_, ?_, ?_, ?_, ?_⟩
  · intro parent name v rest map hv
    cases v with
    | table tb => exact absurd rfl (hv tb)
    | string s => simp [run_conf]
    | integer i => simp [run_conf]
    | float f => simp [run_conf]
    | boolean b => simp [run_conf]
    | datetime d => simp [run_conf]
    | array vs => simp [run_conf]
  · intro parent name t rest map ps loc l hp hl hdec
    simp only [run_conf, hp, hl, hdec]
  · intro parent name t rest map ps hp hl
    simp only [run_conf, hp, hl]
  · intro parent name t rest map loc hp hl
    simp only [run_conf, hp, hl]
  · intro parent name t rest map hp hl
    simp only [run_conf, hp, hl]

/-- C6: the Generic Value Adapter `toml_into_json` is total — it is a Lean
function defined on every `Toml` value, never an error — and maps string to
string, integer to number, finite float to number, non-finite float to null,
boolean to boolean, datetime to its textual rendering as a string, array to
array converting elements in order, and table to a key-ordered object
converting each value (objects inherit the table's key order). -/
theorem claim_toml_into_json_total :
    (∀ s, toml_into_json (.string s) = .str s)
    ∧ (∀ i, toml_into_json (.integer i) = .num (.ofInt i))
    ∧ (∀ f, toml_into_json (.float f) =
        if f.isFinite then .num (.ofFloat f) else .null)
    ∧ (∀ b, toml_into_json (.boolean b) = .bool b)
    ∧ (∀ s, toml_into_json (.datetime s) = .str s)
    ∧ (∀ vs, toml_into_json (.array vs) = .arr (vs.map toml_into_json))
    ∧ (∀ tb, toml_into_json (.table tb) =
        .obj (tb.map (fun e => (e.1, toml_into_json e.2)))) := by
  refine ⟨fun s => rfl, fun i => rfl, ?_, fun b => rfl, fun s => rfl, ?_, ?_⟩
  · intro f
    cases hf : f.isFinite <;> simp [toml_into_json, numberFromF64, hf]
  · intro vs
    rw [toml_into_json, tomlListIntoJson_eq_map]
  · intro tb
    rw [toml_into_json, tomlTblIntoJson_eq_map]

/-- C9: `TopologyNode.for_each` applies the supplied function exactly once to
the node itself and then exactly once to each of its immediate children in
order — it is the fold of the list `node :: directChildren node`, so it makes
`1 + number of direct children` applications and never touches a deeper
descendant (instantiating the fold with list-collection makes the visit list
explicit). -/
theorem claim_for_each_shallow :
    (∀ (σ : Type) (f : σ → TopologyNode → σ) (s : σ) (node : TopologyNode),
        node.for_each f s = List.foldl f s (node :: node.directChildren))
    ∧ ∀ (node : TopologyNode),
        node.for_each (fun acc m => acc ++ [m]) ([] : List TopologyNode)
          = node :: node.directChildren := by
  have key : ∀ (σ : Type) (f : σ → TopologyNode → σ) (s : σ)
      (node : TopologyNode),
      node.for_each f s = List.foldl f s (node :: node.directChildren) := by
    intro σ f s node
    rw [TopologyNode.for_each, TopologyNode.directChildren, List.foldl_cons]
    cases node.node_type with
    | Terminal => rfl
    | Node v => rfl
  refine ⟨key, ?_⟩
  intro node
  rw [key, List.foldl_cons, foldl_snoc_eq_append]
  simp

/-- C4: Group node dual role — for a shape entry `g = [a, b]` under prefix
`parent`, a successful step yields one `Node`-kind node named `parent.g`
with exactly the two `Terminal` children `parent.g.a` and `parent.g.b` in
array order, each with parent `parent.g`, where the children's configs and
then the group's own config are popped-and-consumed from the config map under
their full dotted names; a missing leaf entry fails with a `missed config`
(MissingConfig-style) error naming exactly that leaf with parent `parent.g`,
and a missing group entry fails with `missed config` naming `g` with the
outer parent. -/
theorem claim_group_node_dual_role :
    (∀ (parent : Option String) (g a b : String) (rest : List (String × Toml))
        (conf : List (String × RunConf)) (ca cb cg : RunConf),
        dotted parent g ++ "." ++ a ≠ dotted parent g ++ "." ++ b →
        dotted parent g ++ "." ++ a ≠ dotted parent g →
        dotted parent g ++ "." ++ b ≠ dotted parent g →
        lookupKey (dotted parent g ++ "." ++ a) conf = some ca →
        lookupKey (dotted parent g ++ "." ++ b) conf = some cb →
        lookupKey (dotted parent g) conf = some cg →
        run_root parent ((g, .array [.string a, .string b]) :: rest) conf =
          match run_root parent rest
              (eraseKey (dotted parent g)
                (eraseKey (dotted parent g ++ "." ++ b)
                  (eraseKey (dotted parent g ++ "." ++ a) conf))) with
          | .error e => .error e
          | .ok (nodes, cf) =>
            .ok (.mk (some (dotted parent g)) parent cg
                (.Node [.mk (some (dotted parent g ++ "." ++ a))
                    (some (dotted parent g)) ca .Terminal,
                  .mk (some (dotted parent g ++ "." ++ b))
                    (some (dotted parent g)) cb .Terminal]) :: nodes, cf))
    ∧ (∀ (parent : Option String) (g a b : String)
        (rest : List (String × Toml)) (conf : List (String × RunConf)),
        lookupKey (dotted parent g ++ "." ++ a) conf = Option.none →
        run_root parent ((g, .array [.string a, .string b]) :: rest) conf =
          .error ⟨dotted parent g, a, "missed config"⟩)
    ∧ (∀ (parent : Option String) (g a b : String)
        (rest : List (String × Toml)) (conf : List (String × RunConf))
        (ca : RunConf),
        lookupKey (dotted parent g ++ "." ++ a) conf = some ca →
        lookupKey (dotted parent g ++ "." ++ b)
          (eraseKey (dotted parent g ++ "." ++ a) conf) = Option.none →
        run_root parent ((g, .array [.string a, .string b]) :: rest) conf =
          .error ⟨dotted parent g, b, "missed config"⟩)
    ∧ (∀ (parent : Option String) (g a b : String)
        (rest : List (String × Toml)) (conf : List (String × RunConf))
        (ca cb : RunConf),
        lookupKey (dotted parent g ++ "." ++ a) conf = some ca →
        lookupKey (dotted parent g ++ "." ++ b)
          (eraseKey (dotted parent g ++ "." ++ a) conf) = some cb →
        lookupKey (dotted parent g)
          (eraseKey (dotted parent g ++ "." ++ b)
            (eraseKey (dotted parent g ++ "." ++ a) conf)) = Option.none →
        run_root parent ((g, .array [.string a, .string b]) :: rest) conf =
          .error ⟨parentStr parent, g, "missed config"⟩) := by
  refine ⟨?_, ?_, ?_, ?_⟩
  · intro parent g a b rest conf ca cb cg hab hap hbp hla hlb hlg
    have hlb2 : lookupKey (dotted parent g ++ "." ++ b)
        (eraseKey (dotted parent g ++ "." ++ a) conf) = some cb := by
      rw [lookupKey_eraseKey_ne _ (fun hh => hab hh.symm)]
      exact hlb
    have hlg2 : lookupKey (dotted parent g)
        (eraseKey (dotted parent g ++ "." ++ b)
          (eraseKey (dotted parent g ++ "." ++ a) conf)) = some cg := by
      rw [lookupKey_eraseKey_ne _ (fun hh => hbp hh.symm),
        lookupKey_eraseKey_ne _ (fun hh => hap hh.symm)]
      exact hlg
    simp only [run_root, run_leaves, hla, hlb2, hlg2]
  · intro parent g a b rest conf hla
    simp only [run_root, run_leaves, hla]
  · intro parent g a b rest conf ca hla hlb
    simp only [run_root, run_leaves, hla, hlb]
  · intro parent g a b rest conf ca cb hla hlb hlg
    simp only [run_root, run_leaves, hla, hlb, hlg]

/-- C10: a shape entry whose value is an empty array yields a node of kind
`Node` with an empty children sequence — not a `Terminal` — and the node's
own config entry is still popped from the config map under its dotted path,
its absence being a `missed config` construction error (`Terminal` nodes
arise only from string elements inside arrays, of which there are none
here). -/
theorem claim_empty_group :
    (∀ (parent : Option String) (g : String) (rest : List (String × Toml))
        (conf : List (String × RunConf)) (c : RunConf),
        lookupKey (dotted parent g) conf = some c →
        run_root parent ((g, .array []) :: rest) conf =
          match run_root parent rest (eraseKey (dotted parent g) conf) with
          | .error e => .error e
          | .ok (nodes, cf) =>
            .ok (.mk (some (dotted parent g)) parent c (.Node []) :: nodes,
              cf))
    ∧ (∀ (parent : Option String) (g : String) (rest : List (String × Toml))
        (conf : List (String × RunConf)),
        lookupKey (dotted parent g) conf = Option.none →
        run_root parent ((g, .array []) :: rest) conf =
          .error ⟨parentStr parent, g, "missed config"⟩) := by
  constructor
  · intro parent g rest conf c hlg
    simp only [run_root, run_leaves, hlg]
  · intro parent g rest conf hlg
    simp only [run_root, run_leaves, hlg]

theorem tryFrom_build {t : TomlTopology} {conf : List (String × RunConf)}
    {nodes : List TopologyNode} {rem : List (String × RunConf)}
    (h1 : run_conf Option.none t.config [] = .ok conf)
    (h2 : checkLocations t.hosts conf = .ok ())
    (h3 : run_root Option.none t.root conf = .ok (nodes, rem)) :
    Topology.tryFrom t =
      .ok ⟨t.hosts, .mk Option.none Option.none .none (.Node nodes)⟩ := by
  simp only [Topology.tryFrom, h1, h2, h3]

theorem properNodes_mk_node (n p : Option String) (c : RunConf)
    (cs : List TopologyNode) :
    (TopologyNode.mk n p c (.Node cs)).properNodes = forestList cs := by
  rw [TopologyNode.properNodes, TopologyNode.node_type_mk, typeList]

/-- C2: Duplicate-binding detection — (1) whenever the flattened config map
carries two distinct dotted paths whose `Active`/`Passive` configs share the
same `(location.host, location.port)` pair, all host aliases resolving,
construction fails with a `duplicate service` (DuplicateBinding-style) error;
(2) in every successfully constructed `Topology`, no two distinct dotted node
paths carry configs with the same `(location.host, location.port)` pair. -/
theorem claim_duplicate_binding :
    (∀ (t : TomlTopology) (conf : List (String × RunConf)),
        run_conf Option.none t.config [] = .ok conf →
        hostsKnown t.hosts conf →
        ∀ (p1 p2 : String) (c1 c2 : RunConf) (l1 l2 : Location),
          (p1, c1) ∈ conf → (p2, c2) ∈ conf → p1 ≠ p2 →
          c1.location? = some l1 → c2.location? = some l2 →
          l1.host = l2.host → l1.port = l2.port →
          ∃ e, Topology.tryFrom t = .error e ∧ isDupErr e)
    ∧ (∀ (t : TomlTopology) (topo : Topology),
        Topology.tryFrom t = .ok topo →
        ∀ m1 ∈ topo.root.properNodes, ∀ m2 ∈ topo.root.properNodes,
          ∀ (n1 n2 : String) (l1 l2 : Location),
            m1.name = some n1 → m2.name = some n2 → n1 ≠ n2 →
            m1.config.location? = some l1 → m2.config.location? = some l2 →
            ¬(l1.host = l2.host ∧ l1.port = l2.port)) := by
  constructor
  · intro t conf hrc hknown p1 p2 c1 c2 l1 l2 hm1 hm2 hne hl1 hl2 hhost hport
    cases hcheck : checkLocations t.hosts conf with
    | error e =>
      exact ⟨e, tryFrom_check_error hrc hcheck,
        checkLoop_err_dup t.hosts conf [] e hknown hcheck⟩
    | ok u =>
      cases u
      obtain ⟨hpw, -⟩ := checkLoop_ok_spec t.hosts conf [] hcheck
      have hne2 : ((p1, c1) : String × RunConf) ≠ (p2, c2) :=
        fun hh => hne (congrArg Prod.fst hh)
      have hdb := hpw.forall (fun a b h => distinctBindings_symm h) hm1 hm2 hne2
      exact absurd
        (show bindingStr l1 = bindingStr l2 by
          rw [bindingStr, bindingStr, hhost, hport])
        (hdb l1 l2 hl1 hl2)
  · intro t topo hok m1 hm1 m2 hm2 n1 n2 l1 l2 hn1 hn2 hne hl1 hl2
    obtain ⟨conf, nodes, rem, hrc, hcheck, hrr, htopo⟩ := tryFrom_ok_inv hok
    subst htopo
    rw [properNodes_mk_node] at hm1 hm2
    obtain ⟨-, -, C, -, -, -, -⟩ :=
      run_root_ok_spec Option.none t.root conf nodes rem hrr
    obtain ⟨nm1, e11, e12, -⟩ := C m1 hm1
    obtain ⟨nm2, e21, e22, -⟩ := C m2 hm2
    rw [hn1] at e11
    cases e11
    rw [hn2] at e21
    cases e21
    obtain ⟨hpw, -⟩ := checkLoop_ok_spec t.hosts conf [] hcheck
    have hmem1 := lookupKey_mem e12
    have hmem2 := lookupKey_mem e22
    have hne2 : ((n1, m1.config) : String × RunConf) ≠ (n2, m2.config) :=
      fun hh => hne (congrArg Prod.fst hh)
    have hdb := hpw.forall (fun a b h => distinctBindings_symm h) hmem1 hmem2 hne2
    intro hcontra
    exact (hdb l1 l2 hl1 hl2)
      (by rw [bindingStr, bindingStr, hcontra.1, hcontra.2])

/-- C3 (amended): an entry of the flattened config map whose host alias is
not a key of the hosts map makes construction fail — the check runs over the
full config map before tree assembly — with an `unknown host`
(UnknownHost-style) error, unless an earlier duplicate `(host, port)` binding
is detected first, in which case the error is the `duplicate service` one; in
particular, when the map's bindings are pairwise distinct the error is always
UnknownHost-style. -/
theorem claim_unknown_host_amended :
    ∀ (t : TomlTopology) (conf : List (String × RunConf)),
      run_conf Option.none t.config [] = .ok conf →
      ∀ (p : String) (c : RunConf) (l : Location),
        (p, c) ∈ conf → c.location? = some l →
        lookupKey l.host t.hosts = Option.none →
        (∃ e, Topology.tryFrom t = .error e ∧
          (isUnknownHostErr e ∨ isDupErr e))
        ∧ (conf.Pairwise distinctBindings →
            ∃ e, Topology.tryFrom t = .error e ∧ isUnknownHostErr e) := by
  intro t conf hrc p c l hmem hloc hhost
  constructor
  · obtain ⟨e, he, hstyle⟩ :=
      checkLoop_unknown_fails t.hosts conf [] p c l hmem hloc hhost
    exact ⟨e, tryFrom_check_error hrc he, hstyle⟩
  · intro hpw
    obtain ⟨e, he, hstyle⟩ :=
      checkLoop_unknown_err t.hosts conf [] p c l hmem hloc hhost hpw
        (fun e he lc hlc => rfl)
    exact ⟨e, tryFrom_check_error hrc he, hstyle⟩

/-- C5 (amended): in every successfully constructed `Topology`, every
**array**-shaped entry declared in the tree-shape section — the group path
and its string leaves — has a `RunConf` entry consumed exactly once from the
flattened config map (present before the build, absent afterwards, declared
paths pairwise distinct, all other keys untouched), and such a declared name
without a matching config entry is a construction error; **table**-shaped
entries are pure grouping devices that consume nothing (see the
counterexample). -/
theorem claim_shape_consumption_amended :
    ∀ (t : TomlTopology) (topo : Topology), Topology.tryFrom t = .ok topo →
    ∃ conf nodes rem,
      run_conf Option.none t.config [] = .ok conf ∧
      run_root Option.none t.root conf = .ok (nodes, rem) ∧
      topo.root = .mk Option.none Option.none .none (.Node nodes) ∧
      (forestList nodes).map TopologyNode.name
        = (declaredTbl Option.none t.root).map some ∧
      (declaredTbl Option.none t.root).Nodup ∧
      (∀ d ∈ declaredTbl Option.none t.root, ∃ c,
        lookupKey d conf = some c ∧ lookupKey d rem = Option.none) ∧
      (∀ k, k ∉ declaredTbl Option.none t.root →
        lookupKey k rem = lookupKey k conf) := by
  intro t topo hok
  obtain ⟨conf, nodes, rem, hrc, hcheck, hrr, htopo⟩ := tryFrom_ok_inv hok
  obtain ⟨-, B, C, -, E, F, -⟩ :=
    run_root_ok_spec Option.none t.root conf nodes rem hrr
  refine ⟨conf, nodes, rem, hrc, hrr, by rw [htopo], B, ?_, ?_, ?_⟩
  · have h1 : ((forestList nodes).map TopologyNode.name).Nodup :=
      List.pairwise_map.2 F
    rw [B] at h1
    exact List.Nodup.of_map some h1
  · intro d hd
    have : some d ∈ (forestList nodes).map TopologyNode.name := by
      rw [B]
      exact List.mem_map_of_mem some hd
    obtain ⟨nd, hnd, hname⟩ := List.mem_map.1 this
    obtain ⟨nm, e1, e2, e3⟩ := C nd hnd
    rw [hname] at e1
    cases e1
    exact ⟨nd.config, e2, e3⟩
  · intro k hk
    refine E k ?_
    intro nd hnd hname
    apply hk
    have h2 : some k ∈ (forestList nodes).map TopologyNode.name := by
      rw [← hname]
      exact List.mem_map_of_mem TopologyNode.name hnd
    rw [B] at h2
    obtain ⟨d, hd, hsome⟩ := List.mem_map.1 h2
    cases Option.some.inj hsome
    exact hd

/-- C7: path naming invariant — in every successfully constructed `Topology`
the root node has name `none`, parent `none` and config `RunConf.none`, and
every non-root node's name is `some` of the dotted extension of its `parent`
field by its own final key (so the `parent` field is exactly the node's
dotted path minus its last segment); moreover every named `Node`-kind node's
children carry that node's name as their `parent`. -/
theorem claim_path_naming :
    ∀ (t : TomlTopology) (topo : Topology), Topology.tryFrom t = .ok topo →
      topo.root.name = Option.none ∧ topo.root.parent = Option.none ∧
      topo.root.config = .none ∧
      ∀ nd ∈ topo.root.properNodes,
        (∃ k, nd.name = some (dotted nd.parent k)) ∧
        (∀ cs, nd.node_type = .Node cs → ∀ c ∈ cs, c.parent = nd.name) := by
  intro t topo hok
  obtain ⟨conf, nodes, rem, hrc, hcheck, hrr, htopo⟩ := tryFrom_ok_inv hok
  subst htopo
  obtain ⟨A, -, -, -, -, -, G⟩ :=
    run_root_ok_spec Option.none t.root conf nodes rem hrr
  refine ⟨rfl, rfl, rfl, ?_⟩
  intro nd hnd
  rw [properNodes_mk_node] at hnd
  constructor
  · obtain ⟨pp, k, c, tp, rfl⟩ := A nd hnd
    exact ⟨k, rfl⟩
  · exact G nd hnd

/-- C8: Passive unreachability — every entry of the flattened config map the
resolver builds from an empty accumulator is the `Active` variant (the
resolver never inserts `RunConf.passive` or `RunConf.none`), and consequently
in every successfully constructed `Topology` the synthetic root is the only
node with `RunConf.none`: every proper node's config is `Active`. -/
theorem claim_passive_unreachable :
    (∀ (parent : Option String) (table : List (String × Toml))
        (map' : List (String × RunConf)),
        run_conf parent table [] = .ok map' →
        ∀ e ∈ map', ∃ ps l, e.2 = RunConf.active ps l)
    ∧ (∀ (t : TomlTopology) (topo : Topology),
        Topology.tryFrom t = .ok topo →
        topo.root.config = .none ∧
        ∀ nd ∈ topo.root.properNodes, ∃ ps l,
          nd.config = RunConf.active ps l) := by
  constructor
  · intro parent table map' hok
    exact run_conf_ok_active parent table [] map' hok (by simp)
  · intro t topo hok
    obtain ⟨conf, nodes, rem, hrc, hcheck, hrr, htopo⟩ := tryFrom_ok_inv hok
    subst htopo
    obtain ⟨-, -, C, -, -, -, -⟩ :=
      run_root_ok_spec Option.none t.root conf nodes rem hrr
    refine ⟨rfl, ?_⟩
    intro nd hnd
    rw [properNodes_mk_node] at hnd
    obtain ⟨nm, e1, e2, e3⟩ := C nd hnd
    have hmem := lookupKey_mem e2
    have hact := run_conf_ok_active Option.none t.config [] conf hrc (by simp)
      (nm, nd.config) hmem
    exact hact

/-! ## Concrete example documents -/

/-- A location table `{ host = "h", port = <port> }`. -/
def exLoc (port : Int) : Toml :=
  .table [("host", .string "h"), ("port", .integer port)]

/-- A config scope `{ location = { host = "h", port = <port> }, params = true }`. -/
def exCfg (port : Int) : Toml :=
  .table [("location", exLoc port), ("params", .boolean true)]

/-- A config scope whose location references the undeclared alias `x`. -/
def exCfgX : Toml :=
  .table [("location", .table [("host", .string "x"), ("port", .integer 9)]),
    ("params", .boolean true)]

/-- A well-formed document: one host `h`; a shape with a grouping table `k`
holding a group `g = ["a", "b"]` and an empty group `m`; a flat config
section (quoted dotted keys) for `k.g`, `k.g.a`, `k.g.b` and `m` with
pairwise distinct ports. -/
def exDoc : TomlTopology :=
  { hosts := [("h", ⟨"h.local", 25000⟩)]
    root := [("k", .table [("g", .array [.string "a", .string "b"])]),
      ("m", .array [])]
    config := [("k.g", exCfg 1), ("k.g.a", exCfg 2), ("k.g.b", exCfg 3),
      ("m", exCfg 4)] }

/-- The flattened config map of `exDoc`. -/
def exConf : List (String × RunConf) :=
  [("k.g", .active (.bool true) ⟨"h", 1, Option.none⟩),
   ("k.g.a", .active (.bool true) ⟨"h", 2, Option.none⟩),
   ("k.g.b", .active (.bool true) ⟨"h", 3, Option.none⟩),
   ("m", .active (.bool true) ⟨"h", 4, Option.none⟩)]

/-- The top-level node forest built from `exDoc`. -/
def exNodes : List TopologyNode :=
  [.mk (some "k.g") (some "k") (.active (.bool true) ⟨"h", 1, Option.none⟩)
      (.Node [.mk (some "k.g.a") (some "k.g")
          (.active (.bool true) ⟨"h", 2, Option.none⟩) .Terminal,
        .mk (some "k.g.b") (some "k.g")
          (.active (.bool true) ⟨"h", 3, Option.none⟩) .Terminal]),
   .mk (some "m") Option.none (.active (.bool true) ⟨"h", 4, Option.none⟩)
      (.Node [])]

/-- The topology built from `exDoc`. -/
def exTopo : Topology :=
  ⟨exDoc.hosts, .mk Option.none Option.none .none (.Node exNodes)⟩

/-- `exDoc` with duplicate bindings `a`/`b` on `h:1` and an entry `c`
referencing the unknown alias `x`; its shape section is empty. -/
def exDocDup : TomlTopology :=
  { hosts := [("h", ⟨"h.local", 25000⟩)]
    root := []
    config := [("a", exCfg 1), ("b", exCfg 1), ("c", exCfgX)] }

/-- The flattened config map of `exDocDup`. -/
def exDupConf : List (String × RunConf) :=
  [("a", .active (.bool true) ⟨"h", 1, Option.none⟩),
   ("b", .active (.bool true) ⟨"h", 1, Option.none⟩),
   ("c", .active (.bool true) ⟨"x", 9, Option.none⟩)]

/-- The duplicate-binding error reported for `exDocDup`. -/
def exDupErr : ParseError :=
  ⟨"config", "b", "duplicate service (h:1): a"⟩

/-- A document whose only flaw is the duplicate binding `a`/`b` on `h:1`
(all host aliases resolve). -/
def exDocDup2 : TomlTopology :=
  { hosts := [("h", ⟨"h.local", 25000⟩)]
    root := []
    config := [("a", exCfg 1), ("b", exCfg 1)] }

/-- The flattened config map of `exDocDup2`. -/
def exDup2Conf : List (String × RunConf) :=
  [("a", .active (.bool true) ⟨"h", 1, Option.none⟩),
   ("b", .active (.bool true) ⟨"h", 1, Option.none⟩)]

/-- A document whose only flaw is the unknown host alias `x` in entry `c`. -/
def exDocU : TomlTopology :=
  { hosts := [("h", ⟨"h.local", 25000⟩)]
    root := []
    config := [("a", exCfg 1), ("c", exCfgX)] }

/-- The flattened config map of `exDocU`. -/
def exUConf : List (String × RunConf) :=
  [("a", .active (.bool true) ⟨"h", 1, Option.none⟩),
   ("c", .active (.bool true) ⟨"x", 9, Option.none⟩)]

theorem exDoc_conf : run_conf Option.none exDoc.config [] = .ok exConf := by
  simp +decide [run_conf, exDoc, exLoc, exCfg, exConf, lookupKey,
    eraseKey, locationFromToml, dotted, toml_into_json, insertSorted]

theorem exDoc_check : checkLocations exDoc.hosts exConf = .ok () := by
  simp +decide [checkLocations, checkLoop, exDoc, exConf, RunConf.location?,
    lookupKey, insertSorted]

theorem exDoc_root : run_root Option.none exDoc.root exConf =
    .ok (exNodes, []) := by
  simp +decide [run_root, run_leaves, exDoc, exConf, exNodes, lookupKey,
    eraseKey, dotted]

theorem exDoc_tryFrom : Topology.tryFrom exDoc = .ok exTopo :=
  tryFrom_build exDoc_conf exDoc_check exDoc_root

theorem exDocDup_conf : run_conf Option.none exDocDup.config [] =
    .ok exDupConf := by
  simp +decide [run_conf, exDocDup, exLoc, exCfg, exCfgX, exDupConf, lookupKey,
    eraseKey, locationFromToml, dotted, toml_into_json, insertSorted]

theorem exDocDup_check : checkLocations exDocDup.hosts exDupConf =
    .error exDupErr := by
  simp +decide [checkLocations, checkLoop, exDocDup, exDupConf, exDupErr,
    RunConf.location?, lookupKey, insertSorted]

theorem exDocDup2_conf : run_conf Option.none exDocDup2.config [] =
    .ok exDup2Conf := by
  simp +decide [run_conf, exDocDup2, exLoc, exCfg, exDup2Conf, lookupKey,
    eraseKey, locationFromToml, dotted, toml_into_json, insertSorted]

theorem exDocU_conf : run_conf Option.none exDocU.config [] =
    .ok exUConf := by
  simp +decide [run_conf, exDocU, exLoc, exCfg, exCfgX, exUConf, lookupKey,
    eraseKey, locationFromToml, dotted, toml_into_json, insertSorted]

/-! ## Counterexamples and witnesses -/

/-- C3 counterexample: the flattened config map of `exDocDup` carries the
entry `c` whose host alias `x` is not a key of the hosts map, yet
construction fails with the `duplicate service` error for `b` — not an
UnknownHost-style error — because the duplicate binding of `a`/`b` is
detected earlier in the key-ordered pass. -/
theorem claim_unknown_host_counterexample :
    run_conf Option.none exDocDup.config [] = .ok exDupConf
    ∧ ("c", RunConf.active (.bool true) ⟨"x", 9, Option.none⟩) ∈ exDupConf
    ∧ lookupKey "x" exDocDup.hosts = Option.none
    ∧ Topology.tryFrom exDocDup = .error exDupErr
    ∧ ¬ isUnknownHostErr exDupErr := by
  refine ⟨exDocDup_conf,
    List.Mem.tail _ (List.Mem.tail _ (List.Mem.head _)), rfl,
    tryFrom_check_error exDocDup_conf exDocDup_check, ?_⟩
  rintro ⟨-, hh, heq⟩
  have h2 : some 'd' = some 'u' :=
    congrArg (fun s : String => s.data.head?) heq
  exact absurd (Option.some.inj h2) (by decide)

/-- C5 counterexample: `exDoc`'s shape section declares the table-shaped
entry `k`, the flattened config map has no `RunConf` entry at the path `k`
at all, and construction nevertheless succeeds — so a table-shaped shape
entry has no corresponding consumed config entry. -/
theorem claim_shape_consumption_counterexample :
    Topology.tryFrom exDoc = .ok exTopo
    ∧ ("k", Toml.table [("g", .array [.string "a", .string "b"])]) ∈ exDoc.root
    ∧ lookupKey "k" exConf = Option.none
    ∧ run_conf Option.none exDoc.config [] = .ok exConf :=
  ⟨exDoc_tryFrom, List.Mem.head _, rfl, exDoc_conf⟩

/-- Witness for C1 at concrete inputs: a boolean value is rejected as an
unexpected shape; a table with both reserved keys records the `Active` config
and recurses; tables missing `location`, `params`, or both fail with the
matching message. -/
theorem claim_run_conf_contract_witness :
    run_conf Option.none [("n", .boolean true)] [] =
      .error ⟨parentStr Option.none, "n",
        "unexpected value: " ++ tomlDebug (.boolean true)⟩
    ∧ run_conf Option.none
        [("n", .table [("location", exLoc 1), ("params", .boolean true)])] [] =
        (match run_conf (some (dotted Option.none "n"))
            (eraseKey "location"
              (eraseKey "params" [("location", exLoc 1), ("params", .boolean true)]))
            (insertSorted (dotted Option.none "n")
              (RunConf.active (toml_into_json (.boolean true))
                ⟨"h", 1, Option.none⟩) []) with
          | .error e => .error e
          | .ok map' => run_conf Option.none [] map')
    ∧ run_conf Option.none [("n", .table [("params", .boolean true)])] [] =
        .error ⟨parentStr Option.none, "n", "conf 'location' is missed"⟩
    ∧ run_conf Option.none [("n", .table [("location", exLoc 1)])] [] =
        .error ⟨parentStr Option.none, "n", "conf 'params' is missed"⟩
    ∧ run_conf Option.none [("n", .table [])] [] =
        .error ⟨parentStr Option.none, "n",
          "conf 'location' and 'params' are missed"⟩ :=
  ⟨claim_run_conf_contract.1 Option.none "n" (.boolean true) [] []
      (fun tb h => Toml.noConfusion h),
    claim_run_conf_contract.2.1 Option.none "n" _ [] [] (.boolean true)
      (exLoc 1) ⟨"h", 1, Option.none⟩ rfl rfl rfl,
    claim_run_conf_contract.2.2.1 Option.none "n" _ [] [] (.boolean true)
      rfl rfl,
    claim_run_conf_contract.2.2.2.1 Option.none "n" _ [] [] (exLoc 1)
      rfl rfl,
    claim_run_conf_contract.2.2.2.2 Option.none "n" [] [] [] rfl rfl⟩

/-- Witness for C4 at concrete inputs: the group `g = ["a", "b"]` under
prefix `k` builds the `Node` with its two `Terminal` children from `exConf`,
and each of the three missing-config situations surfaces the right name. -/
theorem claim_group_node_dual_role_witness :
    (run_root (some "k") [("g", .array [.string "a", .string "b"])] exConf =
      match run_root (some "k") []
          (eraseKey (dotted (some "k") "g")
            (eraseKey (dotted (some "k") "g" ++ "." ++ "b")
              (eraseKey (dotted (some "k") "g" ++ "." ++ "a") exConf))) with
      | .error e => .error e
      | .ok (nodes, cf) =>
        .ok (.mk (some (dotted (some "k") "g")) (some "k")
            (.active (.bool true) ⟨"h", 1, Option.none⟩)
            (.Node [.mk (some (dotted (some "k") "g" ++ "." ++ "a"))
                (some (dotted (some "k") "g"))
                (.active (.bool true) ⟨"h", 2, Option.none⟩) .Terminal,
              .mk (some (dotted (some "k") "g" ++ "." ++ "b"))
                (some (dotted (some "k") "g"))
                (.active (.bool true) ⟨"h", 3, Option.none⟩) .Terminal])
          :: nodes, cf))
    ∧ run_root (some "k") [("g", .array [.string "a", .string "b"])] [] =
        .error ⟨dotted (some "k") "g", "a", "missed config"⟩
    ∧ run_root (some "k") [("g", .array [.string "a", .string "b"])]
        [("k.g.a", RunConf.active (.bool true) ⟨"h", 2, Option.none⟩)] =
        .error ⟨dotted (some "k") "g", "b", "missed config"⟩
    ∧ run_root (some "k") [("g", .array [.string "a", .string "b"])]
        [("k.g.a", RunConf.active (.bool true) ⟨"h", 2, Option.none⟩),
         ("k.g.b", RunConf.active (.bool true) ⟨"h", 3, Option.none⟩)] =
        .error ⟨parentStr (some "k"), "g", "missed config"⟩ :=
  ⟨claim_group_node_dual_role.1 (some "k") "g" "a" "b" [] exConf _ _ _
      (by decide) (by decide) (by decide) rfl rfl rfl,
    claim_group_node_dual_role.2.1 (some "k") "g" "a" "b" [] [] rfl,
    claim_group_node_dual_role.2.2.1 (some "k") "g" "a" "b" [] _ _ rfl rfl,
    claim_group_node_dual_role.2.2.2 (some "k") "g" "a" "b" [] _ _ _
      rfl rfl rfl⟩

/-- Witness for C10 at concrete inputs: the empty group `m` builds a
`Node []` (consuming its own config), and fails with `missed config` when
its entry is absent. -/
theorem claim_empty_group_witness :
    (run_root Option.none [("m", .array [])]
        [("m", RunConf.active (.bool true) ⟨"h", 4, Option.none⟩)] =
      match run_root Option.none []
          (eraseKey (dotted Option.none "m")
            [("m", RunConf.active (.bool true) ⟨"h", 4, Option.none⟩)]) with
      | .error e => .error e
      | .ok (nodes, cf) =>
        .ok (.mk (some (dotted Option.none "m")) Option.none
            (.active (.bool true) ⟨"h", 4, Option.none⟩) (.Node []) :: nodes,
          cf))
    ∧ run_root Option.none [("m", .array [])] [] =
        .error ⟨parentStr Option.none, "m", "missed config"⟩ :=
  ⟨claim_empty_group.1 Option.none "m" [] _ _ rfl,
    claim_empty_group.2 Option.none "m" [] [] rfl⟩

/-- Witness for C2: the duplicate binding `h:1` of the two paths `a`, `b`
in `exDocDup2` makes construction fail with a DuplicateBinding-style error,
and in the successfully built `exTopo` the nodes `k.g` and `m` carry
distinct bindings. -/
theorem claim_duplicate_binding_witness :
    (∃ e, Topology.tryFrom exDocDup2 = .error e ∧ isDupErr e)
    ∧ ¬((Location.mk "h" 1 Option.none).host
          = (Location.mk "h" 4 Option.none).host
        ∧ (Location.mk "h" 1 Option.none).port
          = (Location.mk "h" 4 Option.none).port) := by
  constructor
  · refine claim_duplicate_binding.1 exDocDup2 exDup2Conf exDocDup2_conf ?_
      "a" "b" (RunConf.active (.bool true) ⟨"h", 1, Option.none⟩)
      (RunConf.active (.bool true) ⟨"h", 1, Option.none⟩)
      ⟨"h", 1, Option.none⟩ ⟨"h", 1, Option.none⟩
      (List.Mem.head _) (List.Mem.tail _ (List.Mem.head _)) (by decide)
      rfl rfl rfl rfl
    intro e he l hl
    simp only [exDup2Conf, List.mem_cons, List.not_mem_nil, or_false] at he
    rcases he with rfl | rfl
    · rw [RunConf.location?] at hl
      cases hl
      rfl
    · rw [RunConf.location?] at hl
      cases hl
      rfl
  · have hfl : exTopo.root.properNodes =
        [.mk (some "k.g") (some "k")
            (.active (.bool true) ⟨"h", 1, Option.none⟩)
            (.Node [.mk (some "k.g.a") (some "k.g")
                (.active (.bool true) ⟨"h", 2, Option.none⟩) .Terminal,
              .mk (some "k.g.b") (some "k.g")
                (.active (.bool true) ⟨"h", 3, Option.none⟩) .Terminal]),
          .mk (some "k.g.a") (some "k.g")
            (.active (.bool true) ⟨"h", 2, Option.none⟩) .Terminal,
          .mk (some "k.g.b") (some "k.g")
            (.active (.bool true) ⟨"h", 3, Option.none⟩) .Terminal,
          .mk (some "m") Option.none
            (.active (.bool true) ⟨"h", 4, Option.none⟩) (.Node [])] := by
      show (TopologyNode.mk Option.none Option.none .none
        (.Node exNodes)).properNodes = _
      rw [properNodes_mk_node]
      simp [exNodes, forestList, nodeList, typeList]
    refine claim_duplicate_binding.2 exDoc exTopo exDoc_tryFrom
      (.mk (some "k.g") (some "k")
        (.active (.bool true) ⟨"h", 1, Option.none⟩)
        (.Node [.mk (some "k.g.a") (some "k.g")
            (.active (.bool true) ⟨"h", 2, Option.none⟩) .Terminal,
          .mk (some "k.g.b") (some "k.g")
            (.active (.bool true) ⟨"h", 3, Option.none⟩) .Terminal])) ?_
      (.mk (some "m") Option.none
        (.active (.bool true) ⟨"h", 4, Option.none⟩) (.Node [])) ?_
      "k.g" "m" ⟨"h", 1, Option.none⟩ ⟨"h", 4, Option.none⟩
      rfl rfl (by decide) rfl rfl
    · rw [hfl]
      exact List.Mem.head _
    · rw [hfl]
      exact List.Mem.tail _ (List.Mem.tail _
        (List.Mem.tail _ (List.Mem.head _)))

/-- Witness for C3 (amended) at `exDocU`: the unknown alias `x` in entry `c`
makes construction fail, and — the bindings being pairwise distinct — with an
UnknownHost-style error. -/
theorem claim_unknown_host_witness :
    (∃ e, Topology.tryFrom exDocU = .error e ∧
      (isUnknownHostErr e ∨ isDupErr e))
    ∧ (exUConf.Pairwise distinctBindings →
        ∃ e, Topology.tryFrom exDocU = .error e ∧ isUnknownHostErr e) :=
  claim_unknown_host_amended exDocU exUConf exDocU_conf "c"
    (RunConf.active (.bool true) ⟨"x", 9, Option.none⟩)
    ⟨"x", 9, Option.none⟩ (List.Mem.tail _ (List.Mem.head _)) rfl rfl

/-- Witness for C5 (amended) at `exDoc`. -/
theorem claim_shape_consumption_witness :
    ∃ conf nodes rem,
      run_conf Option.none exDoc.config [] = .ok conf ∧
      run_root Option.none exDoc.root conf = .ok (nodes, rem) ∧
      exTopo.root = .mk Option.none Option.none .none (.Node nodes) ∧
      (forestList nodes).map TopologyNode.name
        = (declaredTbl Option.none exDoc.root).map some ∧
      (declaredTbl Option.none exDoc.root).Nodup ∧
      (∀ d ∈ declaredTbl Option.none exDoc.root, ∃ c,
        lookupKey d conf = some c ∧ lookupKey d rem = Option.none) ∧
      (∀ k, k ∉ declaredTbl Option.none exDoc.root →
        lookupKey k rem = lookupKey k conf) :=
  claim_shape_consumption_amended exDoc exTopo exDoc_tryFrom

/-- Witness for C7 at `exDoc`. -/
theorem claim_path_naming_witness :
    exTopo.root.name = Option.none ∧ exTopo.root.parent = Option.none ∧
    exTopo.root.config = .none ∧
    ∀ nd ∈ exTopo.root.properNodes,
      (∃ k, nd.name = some (dotted nd.parent k)) ∧
      (∀ cs, nd.node_type = .Node cs → ∀ c ∈ cs, c.parent = nd.name) :=
  claim_path_naming exDoc exTopo exDoc_tryFrom

/-- Witness for C8 at `exDoc`: the first flattened entry is `Active`, and the
built root's config is `RunConf.none`. -/
theorem claim_passive_unreachable_witness :
    (∃ ps l, (("k.g",
        RunConf.active (.bool true) ⟨"h", 1, Option.none⟩) :
          String × RunConf).2 = RunConf.active ps l)
    ∧ exTopo.root.config = RunConf.none :=
  ⟨claim_passive_unreachable.1 Option.none exDoc.config exConf exDoc_conf
      _ (List.Mem.head _),
    (claim_passive_unreachable.2 exDoc exTopo exDoc_tryFrom).1⟩

end Universum
